import Mathlib

/-!
# Verification of the consequence-propagation core

Shallow embedding of the reputation, economy and witness engines of this
repository (`ReputationManager.cpp`, `EconomicState.cpp`, `WitnessSystem.cpp`),
with theorems settling the frozen claims about them.

Modelling conventions:
* C++ `double` values are embedded as `ℚ` (the source performs only field
  arithmetic and comparisons on them); `static_cast<int>` on a `double` is
  truncation toward zero, embedded as `cxxTrunc`.
* External collaborator classes (`Government`, `Ship`, `System`, `Date`,
  `Point`) are not part of the core sources; they are embedded as plain data
  carrying exactly the observations the core reads from them.
* Maps keyed by pointers are embedded as association lists keyed by `ℕ`
  identities.
-/

/-- Truncation toward zero of a rational, the semantics of C++
`static_cast<int>` applied to a `double` value. -/
def cxxTrunc (q : ℚ) : Int :=
  if 0 ≤ q then ⌊q⌋ else ⌈q⌉

/-! ## ReputationManager.cpp -/

/-- Threshold levels for reputation (enum `ReputationThreshold`,
ReputationManager.h). The numeric enum values are in
`ReputationThreshold.value`. -/
inductive ReputationThreshold where
  | WAR
  | HOSTILE
  | UNFRIENDLY
  | NEUTRAL
  | FRIENDLY
  | ALLIED
  | HONORED
deriving DecidableEq, Repr

/-- The integer value of each enum constant in the C++ source. -/
def ReputationThreshold.value : ReputationThreshold → Int
  | .WAR => -100
  | .HOSTILE => -50
  | .UNFRIENDLY => -25
  | .NEUTRAL => 0
  | .FRIENDLY => 25
  | .ALLIED => 50
  | .HONORED => 100

/-- Position of a threshold in the order
WAR < HOSTILE < UNFRIENDLY < NEUTRAL < FRIENDLY < ALLIED < HONORED. -/
def ReputationThreshold.rank : ReputationThreshold → ℕ
  | .WAR => 0
  | .HOSTILE => 1
  | .UNFRIENDLY => 2
  | .NEUTRAL => 3
  | .FRIENDLY => 4
  | .ALLIED => 5
  | .HONORED => 6

/-- `ReputationManager::GetThreshold` (ReputationManager.cpp:462-477).
A pure classification of a raw reputation value; the comparisons are against
the casted enum values. -/
def getThreshold (reputation : ℚ) : ReputationThreshold :=
  if reputation ≤ -100 then .WAR
  else if reputation ≤ -50 then .HOSTILE
  else if reputation ≤ -25 then .UNFRIENDLY
  else if reputation < 25 then .NEUTRAL
  else if reputation < 50 then .FRIENDLY
  else if reputation < 100 then .ALLIED
  else .HONORED

/-- `ReputationConfig` (ReputationManager.h), with its default member values. -/
structure ReputationConfig where
  positiveDecayRate : ℚ := 1/100
  negativeRecoveryRate : ℚ := 5/1000
  neutralPoint : ℚ := 0
  atrocityThreshold : ℚ := -50
  forgivesAtrocities : Bool := false
  atrocityForgivenessDays : Int := 365
  allyReputationFactor : ℚ := 1/2
  memoryStrength : ℚ := 1/2
deriving DecidableEq, Repr

/-- `ReputationEvent` (ReputationManager.h). Dates are embedded as `Int`
day numbers. -/
structure ReputationEvent where
  date : Int := 0
  change : ℚ := 0
  reason : String := ""
  wasAtrocity : Bool := false
  wasWitnessed : Bool := true
deriving DecidableEq, Repr

/-- `GovernmentReputationState` (ReputationManager.h), with its default member
values. A C++ `Date` that may be unset (default `Date()`) is an `Option Int`. -/
structure GovernmentReputationState where
  lastInteraction : Option Int := none
  hasCommittedAtrocity : Bool := false
  atrocityDate : Option Int := none
  goodDeedCount : Int := 0
  recentEvents : List ReputationEvent := []
  peakReputation : ℚ := 0
  troughReputation : ℚ := 0
  daysSincePositiveInteraction : Int := 0
deriving DecidableEq, Repr

/-- The `ReputationManager` state: per-government configs and states
(`std::map<const Government *, ...>` keyed by government identity) plus the
default config. Governments are identified by `ℕ`. -/
structure ReputationManager where
  defaultConfig : ReputationConfig := {}
  configs : List (ℕ × ReputationConfig) := []
  states : List (ℕ × GovernmentReputationState) := []
deriving DecidableEq, Repr

/-- `ReputationManager::GetConfig`: the per-government config when present,
the default config otherwise. -/
def getConfig (M : ReputationManager) (gov : ℕ) : ReputationConfig :=
  (M.configs.lookup gov).getD M.defaultConfig

/-- Insert-or-replace in an association list, the effect of `states[gov] = st`
on a `std::map`. -/
def setAssoc (l : List (ℕ × GovernmentReputationState)) (gov : ℕ)
    (st : GovernmentReputationState) : List (ℕ × GovernmentReputationState) :=
  match l with
  | [] => [(gov, st)]
  | (g, s) :: rest =>
    if g = gov then (g, st) :: rest else (g, s) :: setAssoc rest gov st

/-- `ReputationManager::GetEffectiveDecayRate` (ReputationManager.cpp:402-431). -/
def getEffectiveDecayRate (M : ReputationManager) (gov : ℕ) : ℚ :=
  let config := getConfig M gov
  let rate := config.positiveDecayRate
  match M.states.lookup gov with
  | none => max 0 rate
  | some state =>
    let rate := rate * (1 - config.memoryStrength)
    let rate :=
      if state.goodDeedCount > 0 then
        rate * (1 - min (1/2) ((state.goodDeedCount : ℚ) * (5/100)))
      else rate
    let rate :=
      if state.daysSincePositiveInteraction < 7 then
        rate * (1 - (3/10) * (1 - (state.daysSincePositiveInteraction : ℚ) / 7))
      else rate
    max 0 rate

/-- `ReputationManager::GetEffectiveRecoveryRate` (ReputationManager.cpp:435-458). -/
def getEffectiveRecoveryRate (M : ReputationManager) (gov : ℕ) : ℚ :=
  let config := getConfig M gov
  let rate := config.negativeRecoveryRate
  match M.states.lookup gov with
  | none => max 0 rate
  | some state =>
    let rate := if state.hasCommittedAtrocity then rate * (1/10) else rate
    let rate :=
      if state.daysSincePositiveInteraction > 30 then
        rate * (1 + min (1/2) (((state.daysSincePositiveInteraction : ℚ) - 30) * (1/100)))
      else rate
    max 0 rate

/-- `ReputationManager::ApplyDecay` (ReputationManager.cpp:541-569).
`currentDate` is passed by the source but unused in the body. -/
def applyDecay (M : ReputationManager) (gov : ℕ) (currentRep : ℚ)
    (currentDate : Int) : ℚ :=
  let config := getConfig M gov
  let neutralPoint := config.neutralPoint
  if currentRep > neutralPoint then
    let rate := getEffectiveDecayRate M gov
    let decay := (currentRep - neutralPoint) * rate
    let newRep := currentRep - decay
    max neutralPoint newRep
  else if currentRep < neutralPoint then
    let rate := getEffectiveRecoveryRate M gov
    let recovery := (neutralPoint - currentRep) * rate
    let newRep := currentRep + recovery
    min neutralPoint newRep
  else currentRep

/-- `ReputationManager::RecordAtrocity` (ReputationManager.cpp:359-368):
get-or-create the state (`states[gov]` default-constructs) and set the
atrocity bookkeeping. -/
def recordAtrocity (M : ReputationManager) (gov : ℕ) (date : Int) :
    ReputationManager :=
  let st := (M.states.lookup gov).getD {}
  let st := { st with
    hasCommittedAtrocity := true
    atrocityDate := some date
    lastInteraction := some date }
  { M with states := setAssoc M.states gov st }

/-- `ReputationManager::HasUnforgivenAtrocity` (ReputationManager.cpp:372-383). -/
def hasUnforgivenAtrocity (M : ReputationManager) (gov : ℕ) : Bool :=
  match M.states.lookup gov with
  | none => false
  | some st =>
    if !st.hasCommittedAtrocity then false
    else !(getConfig M gov).forgivesAtrocities

/-! ### Claims C1, C2, C10 -/

/-- C1: `ReputationManager::GetThreshold` is monotonic non-decreasing in the
reputation value (with respect to the order
WAR < HOSTILE < UNFRIENDLY < NEUTRAL < FRIENDLY < ALLIED < HONORED), and
classification is pure: it is a function of the raw value alone, so repeated
calls on the same value return the same threshold and no state is mutated. -/
theorem getThreshold_monotone (v1 v2 : ℚ) (h : v1 ≤ v2) :
    (getThreshold v1).rank ≤ (getThreshold v2).rank ∧
      getThreshold v1 = getThreshold v1 := by
  refine ⟨?_, rfl⟩
  unfold getThreshold
  split_ifs <;> simp [ReputationThreshold.rank] <;> linarith

/-- Witness for C1 at the concrete pair (-60, 30): HOSTILE ≤ FRIENDLY. -/
theorem getThreshold_monotone_witness :
    ((-60 : ℚ) ≤ 30) ∧
      ((getThreshold (-60)).rank ≤ (getThreshold 30).rank ∧
        getThreshold (-60) = getThreshold (-60)) :=
  ⟨by norm_num, getThreshold_monotone (-60) 30 (by norm_num)⟩

/-- C2: `ReputationManager::ApplyDecay` never overshoots the configured
neutral baseline: from strictly above the baseline the result stays ≥ the
baseline, from strictly below it stays ≤ the baseline. This holds for every
government, every manager state and hence for every effective decay/recovery
rate the source can compute, including rates greater than 1 (the result is
clamped at the baseline). -/
theorem applyDecay_no_overshoot (M : ReputationManager) (gov : ℕ) (rep : ℚ)
    (d : Int) :
    (rep > (getConfig M gov).neutralPoint →
      applyDecay M gov rep d ≥ (getConfig M gov).neutralPoint) ∧
    (rep < (getConfig M gov).neutralPoint →
      applyDecay M gov rep d ≤ (getConfig M gov).neutralPoint) := by
  unfold applyDecay
  constructor <;> intro h
  · rw [if_pos h]
    exact le_max_left _ _
  · rw [if_neg (by linarith), if_pos h]
    exact min_le_left _ _

/-- The empty reputation manager, used by concrete witnesses. -/
def emptyRepManager : ReputationManager := {}

/-- Witness for C2: with the default (empty) manager, reputation 10 is above
the baseline 0 and one decay step stays ≥ 0. -/
theorem applyDecay_no_overshoot_witness :
    ((10 : ℚ) > (getConfig emptyRepManager 0).neutralPoint) ∧
      applyDecay emptyRepManager 0 10 0 ≥ (getConfig emptyRepManager 0).neutralPoint :=
  ⟨by norm_num [getConfig, emptyRepManager],
    (applyDecay_no_overshoot emptyRepManager 0 10 0).1
      (by norm_num [getConfig, emptyRepManager])⟩

/-- Looking up the key just stored by `setAssoc` returns the stored state. -/
theorem lookup_setAssoc (l : List (ℕ × GovernmentReputationState)) (gov : ℕ)
    (st : GovernmentReputationState) : (setAssoc l gov st).lookup gov = some st := by
  induction l with
  | nil => simp [setAssoc, List.lookup]
  | cons p rest ih =>
    obtain ⟨g, s⟩ := p
    by_cases hg : g = gov
    · subst hg
      simp [setAssoc, List.lookup]
    · simp only [setAssoc, if_neg hg, List.lookup]
      have : (gov == g) = false := by
        simp [beq_iff_eq]
        omega
      simp [this, ih]

/-- C10: `ReputationManager::HasUnforgivenAtrocity` ignores the forgiveness
window entirely: for a government whose effective config forgives atrocities
it returns false at all times, even immediately after `RecordAtrocity`; and
it returns true exactly when the stored state records a committed atrocity
and the config never forgives atrocities. -/
theorem hasUnforgivenAtrocity_spec (M : ReputationManager) (gov : ℕ) :
    ((getConfig M gov).forgivesAtrocities = true →
      hasUnforgivenAtrocity M gov = false ∧
      ∀ date : Int, hasUnforgivenAtrocity (recordAtrocity M gov date) gov = false) ∧
    (hasUnforgivenAtrocity M gov = true ↔
      ∃ st, M.states.lookup gov = some st ∧ st.hasCommittedAtrocity = true ∧
        (getConfig M gov).forgivesAtrocities = false) := by
  constructor
  · intro hforg
    constructor
    · unfold hasUnforgivenAtrocity
      cases hst : M.states.lookup gov with
      | none => rfl
      | some st =>
        by_cases hc : st.hasCommittedAtrocity <;> simp [hc, hforg]
    · intro date
      simp only [hasUnforgivenAtrocity, recordAtrocity, lookup_setAssoc]
      simp [getConfig] at hforg ⊢
      simp [hforg]
  · unfold hasUnforgivenAtrocity
    cases hst : M.states.lookup gov with
    | none => simp
    | some st =>
      by_cases hc : st.hasCommittedAtrocity <;>
        by_cases hf : (getConfig M gov).forgivesAtrocities <;>
          simp [hc, hf]

/-- A manager whose default config forgives atrocities, for the C10 witness. -/
def forgivingRepManager : ReputationManager :=
  { defaultConfig := { forgivesAtrocities := true } }

/-- Witness for C10: in a manager whose (default) config forgives atrocities,
`HasUnforgivenAtrocity` is false both before and right after `RecordAtrocity`. -/
theorem hasUnforgivenAtrocity_spec_witness :
    ((getConfig forgivingRepManager 0).forgivesAtrocities = true) ∧
      (hasUnforgivenAtrocity forgivingRepManager 0 = false ∧
        ∀ date : Int,
          hasUnforgivenAtrocity (recordAtrocity forgivingRepManager 0 date) 0 = false) :=
  ⟨rfl, (hasUnforgivenAtrocity_spec forgivingRepManager 0).1 rfl⟩

/-! ## WitnessSystem.cpp -/

/-- Constants from namespace `WitnessConstants` (WitnessSystem.h). -/
def DEFAULT_WITNESS_RANGE : ℚ := 5000

/-- Cloaking level above which a ship cannot be witnessed. -/
def CLOAK_WITNESS_THRESHOLD : ℚ := 1/2

/-- Minimum cloak level for the observer to be unable to witness. -/
def OBSERVER_CLOAK_THRESHOLD : ℚ := 4/5

/-- Range multiplier for sensor-equipped ships. -/
def SENSOR_RANGE_MULTIPLIER : ℚ := 3/2

/-- External `Government` as observed by the witness engine: display name,
whether it is an enemy of the player (`IsEnemy()`), and the set of names of
governments it is an enemy of (`IsEnemy(other)`). -/
structure Govt where
  trueName : String
  isEnemyOfPlayer : Bool := false
  enemyNames : List String := []
deriving DecidableEq, Repr

/-- `witnessGov->IsEnemy(victimGov)`: the pairwise adversarial relation of the
external faction directory. -/
def govIsEnemyOf (wg vg : Govt) : Bool :=
  vg.trueName ∈ wg.enemyNames

/-- `str.find(pat) != npos`: substring containment. -/
def strContainsSub (s pat : String) : Bool :=
  decide (pat.toList <:+: s.toList)

/-- External `Ship` as observed by the witness engine. `id` stands for the
object identity used by the source's pointer comparisons; the three scan
attributes are `Attributes().Get(...)` values. -/
structure Ship where
  id : ℕ := 0
  isDestroyed : Bool := false
  isDisabled : Bool := false
  cloaking : ℚ := 0
  cargoScanPower : ℚ := 0
  outfitScanPower : ℚ := 0
  tacticalScanPower : ℚ := 0
  govt : Option Govt := none
deriving DecidableEq, Repr

/-- `WitnessSystem::HasEnhancedSensors` (WitnessSystem.cpp:290-297). -/
def hasEnhancedSensors (ship : Ship) : Bool :=
  ship.cargoScanPower > 0 || ship.outfitScanPower > 0 || ship.tacticalScanPower > 0

/-- `WitnessSystem::GetWitnessRange` (WitnessSystem.cpp:301-309). -/
def getWitnessRange (ship : Ship) : ℚ :=
  let range := DEFAULT_WITNESS_RANGE
  if hasEnhancedSensors ship then range * SENSOR_RANGE_MULTIPLIER else range

/-- `WitnessSystem::CanWitness` (WitnessSystem.cpp:238-258). The observer's
Euclidean distance to the event location (`Position().Distance(eventLocation)`)
is passed in as `distance`. -/
def canWitness (observer : Ship) (distance : ℚ) (perpetrator : Option Ship)
    (range : ℚ) : Bool :=
  if distance > range then false
  else if observer.cloaking ≥ OBSERVER_CLOAK_THRESHOLD then false
  else
    match perpetrator with
    | some p => !(p.cloaking ≥ CLOAK_WITNESS_THRESHOLD)
    | none => true

/-- `WitnessSystem::CalculateClarity` (WitnessSystem.cpp:262-286). -/
def calculateClarity (observer : Ship) (distance : ℚ) (perpetrator : Option Ship)
    (range : ℚ) : ℚ :=
  let clarity := 1 - distance / range
  let clarity := max 0 (min 1 clarity)
  let clarity :=
    match perpetrator with
    | some p => clarity * (1 - p.cloaking * (8/10))
    | none => clarity
  if hasEnhancedSensors observer then min 1 (clarity * (13/10)) else clarity

/-- `WitnessSystem::WouldReport` (WitnessSystem.cpp:313-342). -/
def wouldReport (witness : Ship) (victimGov : Option Govt) : Bool :=
  match witness.govt with
  | none => false
  | some witnessGov =>
    let reportChance : ℚ := 7/10
    let reportChance :=
      if witnessGov.isEnemyOfPlayer || strContainsSub witnessGov.trueName "Navy" ||
          strContainsSub witnessGov.trueName "Militia" ||
          strContainsSub witnessGov.trueName "Police" then (95/100 : ℚ)
      else reportChance
    if witnessGov.isEnemyOfPlayer then false
    else
      let reportChance : ℚ :=
        match victimGov with
        | some vg => if !(govIsEnemyOf witnessGov vg) then (1 : ℚ) else reportChance
        | none => reportChance
      decide (reportChance ≥ 1/2)

/-- `WitnessInfo` (WitnessSystem.h). -/
structure WitnessInfo where
  ship : Ship
  government : Option Govt := none
  distance : ℚ := 0
  canReport : Bool := true
  hasSensors : Bool := false
  clarity : ℚ := 1
deriving DecidableEq, Repr

/-- `WitnessSystem::CheckWitnesses` (WitnessSystem.cpp:194-234), returning the
accumulated `WitnessResult` witness vector. `dist s` is the external geometry
query `s->Position().Distance(eventLocation)`; pointer identity is value
identity of the embedded ships. -/
def checkWitnesses (dist : Ship → ℚ) (perpetrator victim : Option Ship)
    (nearbyShips : List Ship) (customRange : ℚ) : List WitnessInfo :=
  match nearbyShips with
  | [] => []
  | ship :: rest =>
    if some ship = perpetrator ∨ some ship = victim then
      checkWitnesses dist perpetrator victim rest customRange
    else if ship.isDestroyed ∨ ship.isDisabled then
      checkWitnesses dist perpetrator victim rest customRange
    else
      let range := getWitnessRange ship
      let range := if customRange > 0 then customRange else range
      if !(canWitness ship (dist ship) perpetrator range) then
        checkWitnesses dist perpetrator victim rest customRange
      else
        { ship := ship
          government := ship.govt
          distance := dist ship
          canReport := wouldReport ship (victim.bind Ship.govt)
          hasSensors := hasEnhancedSensors ship
          clarity := calculateClarity ship (dist ship) perpetrator range } ::
          checkWitnesses dist perpetrator victim rest customRange

/-- A ship appears among the computed witnesses. -/
def witnessed (ws : List WitnessInfo) (s : Ship) : Prop :=
  ∃ w ∈ ws, w.ship = s

/-- The range actually used by `CheckWitnesses` for an observer: the
`customRange` argument whenever it is positive (the default argument is the
positive `DEFAULT_WITNESS_RANGE`), the sensor-adjusted base range otherwise. -/
def usedRange (customRange : ℚ) (ship : Ship) : ℚ :=
  if customRange > 0 then customRange else getWitnessRange ship

/-- `CanWitness` unfolded into the three spec-level conditions. -/
theorem canWitness_iff (observer : Ship) (distance : ℚ) (perpetrator : Option Ship)
    (range : ℚ) :
    canWitness observer distance perpetrator range = true ↔
      (distance ≤ range ∧ observer.cloaking < OBSERVER_CLOAK_THRESHOLD ∧
        ∀ p, perpetrator = some p → p.cloaking < CLOAK_WITNESS_THRESHOLD) := by
  cases perpetrator with
  | none => simp [canWitness, not_lt, not_le]
  | some p => simp [canWitness, not_lt, not_le]

/-- The conditions under which `CheckWitnesses` adds an observer: not the
perpetrator or victim, able to observe, and passing `CanWitness` at the range
the source actually uses. -/
def qualifiesWitness (dist : Ship → ℚ) (perpetrator victim : Option Ship)
    (customRange : ℚ) (x : Ship) : Prop :=
  ¬(some x = perpetrator ∨ some x = victim) ∧
    ¬(x.isDestroyed ∨ x.isDisabled) ∧
    canWitness x (dist x) perpetrator (usedRange customRange x) = true

/-- Membership in a cons of witness infos. -/
theorem witnessed_cons (w : WitnessInfo) (ws : List WitnessInfo) (s : Ship) :
    witnessed (w :: ws) s ↔ w.ship = s ∨ witnessed ws s := by
  simp [witnessed]

/-- Full characterization of which ships `CheckWitnesses` includes. -/
theorem witnessed_checkWitnesses (dist : Ship → ℚ) (perpetrator victim : Option Ship)
    (ships : List Ship) (customRange : ℚ) (s : Ship) :
    witnessed (checkWitnesses dist perpetrator victim ships customRange) s ↔
      (s ∈ ships ∧ qualifiesWitness dist perpetrator victim customRange s) := by
  induction ships with
  | nil => simp [checkWitnesses, witnessed]
  | cons hd tl ih =>
    rw [checkWitnesses]
    by_cases h1 : some hd = perpetrator ∨ some hd = victim
    · rw [if_pos h1, ih]
      constructor
      · rintro ⟨htl, hq⟩
        exact ⟨List.mem_cons_of_mem _ htl, hq⟩
      · rintro ⟨hmem, hq⟩
        rcases List.mem_cons.mp hmem with rfl | htl
        · exact absurd h1 hq.1
        · exact ⟨htl, hq⟩
    · rw [if_neg h1]
      by_cases h2 : (hd.isDestroyed ∨ hd.isDisabled : Prop)
      · rw [if_pos h2, ih]
        constructor
        · rintro ⟨htl, hq⟩
          exact ⟨List.mem_cons_of_mem _ htl, hq⟩
        · rintro ⟨hmem, hq⟩
          rcases List.mem_cons.mp hmem with rfl | htl
          · exact absurd h2 hq.2.1
          · exact ⟨htl, hq⟩
      · rw [if_neg h2]
        by_cases h3 : canWitness hd (dist hd) perpetrator
            (if customRange > 0 then customRange else getWitnessRange hd) = true
        · have h3' : (!(canWitness hd (dist hd) perpetrator
              (if customRange > 0 then customRange else getWitnessRange hd)) = true) = False := by
            simp [h3]
          rw [if_neg (by simp [h3])]
          rw [witnessed_cons, ih]
          constructor
          · rintro (rfl | ⟨htl, hq⟩)
            · exact ⟨List.mem_cons_self _ _, h1, h2, h3⟩
            · exact ⟨List.mem_cons_of_mem _ htl, hq⟩
          · rintro ⟨hmem, hq⟩
            rcases List.mem_cons.mp hmem with rfl | htl
            · exact Or.inl rfl
            · exact Or.inr ⟨htl, hq⟩
        · rw [if_pos (by simp [h3]), ih]
          constructor
          · rintro ⟨htl, hq⟩
            exact ⟨List.mem_cons_of_mem _ htl, hq⟩
          · rintro ⟨hmem, hq⟩
            rcases List.mem_cons.mp hmem with rfl | htl
            · exact absurd hq.2.2 h3
            · exact ⟨htl, hq⟩

/-- C7 (amended): an observer in the candidate list is included as a witness
iff it is neither the perpetrator nor the victim, is neither destroyed nor
disabled, its distance to the event is at most the range the source actually
uses — the `customRange` argument whenever that is positive (as under the
defaulted call, which passes the base range 5000, so the sensor multiplier
never applies there), and the sensor-adjusted base range only otherwise —
its own cloaking is below the observer-blind threshold 0.8, and the
perpetrator's cloaking is below the victim-invisible threshold 0.5. -/
theorem checkWitnesses_inclusion (dist : Ship → ℚ) (perpetrator victim : Option Ship)
    (ships : List Ship) (customRange : ℚ) (s : Ship) (hs : s ∈ ships) :
    witnessed (checkWitnesses dist perpetrator victim ships customRange) s ↔
      (some s ≠ perpetrator ∧ some s ≠ victim ∧
        s.isDestroyed = false ∧ s.isDisabled = false ∧
        dist s ≤ usedRange customRange s ∧
        s.cloaking < OBSERVER_CLOAK_THRESHOLD ∧
        ∀ p, perpetrator = some p → p.cloaking < CLOAK_WITNESS_THRESHOLD) := by
  rw [witnessed_checkWitnesses]
  unfold qualifiesWitness
  rw [canWitness_iff]
  simp [hs, not_or, and_assoc]

/-- A plain observer for the C7 witness. -/
def plainObserver : Ship := { id := 1 }

/-- Witness for C7 at a concrete input: a plain observer at distance 100 with
no perpetrator or victim is included iff the stated conditions hold. -/
theorem checkWitnesses_inclusion_witness :
    plainObserver ∈ [plainObserver] ∧
      (witnessed (checkWitnesses (fun _ => 100) none none [plainObserver] DEFAULT_WITNESS_RANGE)
          plainObserver ↔
        (some plainObserver ≠ none ∧ some plainObserver ≠ none ∧
          plainObserver.isDestroyed = false ∧ plainObserver.isDisabled = false ∧
          (100 : ℚ) ≤ usedRange DEFAULT_WITNESS_RANGE plainObserver ∧
          plainObserver.cloaking < OBSERVER_CLOAK_THRESHOLD ∧
          ∀ p, (none : Option Ship) = some p → p.cloaking < CLOAK_WITNESS_THRESHOLD)) :=
  ⟨List.mem_singleton.mpr rfl,
    checkWitnesses_inclusion (fun _ => 100) none none [plainObserver]
      DEFAULT_WITNESS_RANGE plainObserver (List.mem_singleton.mpr rfl)⟩

/-- A sensor-equipped observer, for the C7 counterexample. -/
def sensorObserver : Ship := { id := 1, cargoScanPower := 1 }

/-- An uncloaked perpetrator, for the C7 counterexample. -/
def perpShip : Ship := { id := 2 }

/-- Counterexample to C7 as stated: under the default `customRange` argument
(`DEFAULT_WITNESS_RANGE`, which is positive), a sensor-equipped observer at
distance 6000 satisfies every condition of the claim — in particular
6000 ≤ 7500, its sensor-multiplied base range — and both cloaking conditions,
yet `CheckWitnesses` does not include it, because the positive `customRange`
overrides the sensor-adjusted range with 5000. -/
theorem checkWitnesses_claim_counterexample :
    (some sensorObserver ≠ some perpShip) ∧
      sensorObserver.isDestroyed = false ∧ sensorObserver.isDisabled = false ∧
      (6000 : ℚ) ≤ getWitnessRange sensorObserver ∧
      sensorObserver.cloaking < OBSERVER_CLOAK_THRESHOLD ∧
      perpShip.cloaking < CLOAK_WITNESS_THRESHOLD ∧
      ¬ witnessed (checkWitnesses (fun _ => 6000) (some perpShip) none [sensorObserver]
          DEFAULT_WITNESS_RANGE) sensorObserver := by
  refine ⟨by simp [sensorObserver, perpShip], rfl, rfl,
    by norm_num [getWitnessRange, sensorObserver, hasEnhancedSensors,
      DEFAULT_WITNESS_RANGE, SENSOR_RANGE_MULTIPLIER],
    by norm_num [sensorObserver, OBSERVER_CLOAK_THRESHOLD],
    by norm_num [perpShip, CLOAK_WITNESS_THRESHOLD], ?_⟩
  rw [witnessed_checkWitnesses]
  rintro ⟨-, -, -, hq⟩
  rw [canWitness_iff] at hq
  have : ¬((fun (_ : Ship) => (6000 : ℚ)) sensorObserver ≤
      usedRange DEFAULT_WITNESS_RANGE sensorObserver) := by
    norm_num [usedRange, DEFAULT_WITNESS_RANGE]
  exact this hq.1

/-- `WitnessReport` (WitnessSystem.h) with its default member initializers;
witnesses are identified by the `ℕ` ship identities used for pointer
comparison. -/
structure WitnessReport where
  reportingGov : Option ℕ := none
  victimGov : Option ℕ := none
  eventType : Int := 0
  framesRemaining : Int := 0
  system : Option ℕ := none
  reputationImpact : ℚ := 0
  canBeSuppressed : Bool := true
  activeWitnesses : List ℕ := []
deriving DecidableEq, Repr

/-- The `WitnessReport` constructor (WitnessSystem.cpp:153-158): it sets only
the listed fields, leaving `canBeSuppressed = true` and the witness list
empty, as the member initializers do. -/
def mkWitnessReport (reportingGov victimGov : Option ℕ) (eventType : Int)
    (frames : Int) (system : Option ℕ) (impact : ℚ) : WitnessReport :=
  { reportingGov := reportingGov
    victimGov := victimGov
    eventType := eventType
    framesRemaining := frames
    system := system
    reputationImpact := impact }

/-- `WitnessReport::Step` (WitnessSystem.cpp:162-167): decrement the countdown
if positive, and report whether the countdown has elapsed. -/
def stepReport (r : WitnessReport) : WitnessReport × Bool :=
  let r := if r.framesRemaining > 0 then
      { r with framesRemaining := r.framesRemaining - 1 }
    else r
  (r, decide (r.framesRemaining ≤ 0))

/-- `WitnessReport::AllWitnessesEliminated` (WitnessSystem.cpp:187-190). -/
def allWitnessesEliminated (r : WitnessReport) : Bool :=
  r.canBeSuppressed && r.activeWitnesses.isEmpty

/-- `WitnessReport::EliminateWitness` (WitnessSystem.cpp:171-183): a
non-suppressible report is returned untouched; otherwise the first matching
witness is erased and the suppression status returned. -/
def eliminateWitness (r : WitnessReport) (ship : ℕ) : WitnessReport × Bool :=
  if !r.canBeSuppressed then (r, false)
  else
    let r := { r with activeWitnesses := r.activeWitnesses.eraseP (· == ship) }
    (r, allWitnessesEliminated r)

/-- `WitnessSystem::StepReports` (WitnessSystem.cpp:353-380): one sweep over
the pending queue, returning (remaining pending reports, matured reports).
Reports whose witnesses were all eliminated are erased without being
returned; the others are stepped and delivered when their countdown elapses. -/
def stepReports : List WitnessReport → List WitnessReport × List WitnessReport
  | [] => ([], [])
  | r :: rest =>
    if allWitnessesEliminated r then stepReports rest
    else
      let s := stepReport r
      let t := stepReports rest
      if s.2 then (t.1, s.1 :: t.2) else (s.1 :: t.1, t.2)

/-- `WitnessSystem::NotifyShipDestroyed` (WitnessSystem.cpp:391-395). -/
def notifyShipDestroyed (pendingReports : List WitnessReport) (ship : ℕ) :
    List WitnessReport :=
  pendingReports.map (fun r => (eliminateWitness r ship).1)

/-- Stepping never changes the suppression data of a report. -/
theorem allWitnessesEliminated_stepReport (r : WitnessReport) :
    allWitnessesEliminated (stepReport r).1 = allWitnessesEliminated r := by
  unfold stepReport allWitnessesEliminated
  by_cases h : r.framesRemaining > 0 <;> simp [h]

/-- Every report surviving a sweep, pending or matured, still has a witness
able to report (or is non-suppressible). -/
theorem stepReports_not_eliminated (q : List WitnessReport) (x : WitnessReport)
    (hx : x ∈ (stepReports q).1 ∨ x ∈ (stepReports q).2) :
    allWitnessesEliminated x = false := by
  induction q with
  | nil => simp [stepReports] at hx
  | cons r rest ih =>
    rw [stepReports] at hx
    by_cases he : allWitnessesEliminated r
    · rw [if_pos he] at hx
      exact ih hx
    · rw [if_neg he] at hx
      by_cases hs : (stepReport r).2 <;> simp [hs] at hx
      · rcases hx with h | (rfl | h)
        · exact ih (Or.inl h)
        · rw [allWitnessesEliminated_stepReport]
          exact Bool.not_eq_true _ ▸ (Bool.of_not_eq_true he)
        · exact ih (Or.inr h)
      · rcases hx with (rfl | h) | h
        · rw [allWitnessesEliminated_stepReport]
          exact Bool.not_eq_true _ ▸ (Bool.of_not_eq_true he)
        · exact ih (Or.inl h)
        · exact ih (Or.inr h)

/-- C6: (1) `EliminateWitness` on a non-suppressible report is a no-op — the
witness set is not modified and no suppression is signalled; (2) a
suppressible report whose required-witness set has been fully eliminated is
discarded by the next `StepReports` sweep: it appears neither among the
remaining pending reports nor among the matured ones; (3) a surviving report
is stepped normally: in one sweep it matures exactly when its countdown
elapses (frames ≤ 1), else it stays pending with the countdown decremented. -/
theorem witnessReport_suppression (r : WitnessReport) (ship : ℕ)
    (q : List WitnessReport) :
    (r.canBeSuppressed = false → eliminateWitness r ship = (r, false)) ∧
    (r.canBeSuppressed = true → r.activeWitnesses = [] →
      r ∉ (stepReports q).1 ∧ r ∉ (stepReports q).2) ∧
    (allWitnessesEliminated r = false →
      stepReports [r] =
        if r.framesRemaining ≤ 1 then ([], [(stepReport r).1])
        else ([(stepReport r).1], [])) := by
  refine ⟨?_, ?_, ?_⟩
  · intro h
    simp [eliminateWitness, h]
  · intro hc hw
    have helim : allWitnessesEliminated r = true := by
      simp [allWitnessesEliminated, hc, hw]
    constructor <;> intro hmem
    · have := stepReports_not_eliminated q r (Or.inl hmem)
      rw [helim] at this
      cases this
    · have := stepReports_not_eliminated q r (Or.inr hmem)
      rw [helim] at this
      cases this
  · intro he
    have hstep : (stepReport r).2 = decide (r.framesRemaining ≤ 1) := by
      unfold stepReport
      by_cases h : r.framesRemaining > 0 <;> simp [h] <;> omega
    rw [stepReports, if_neg (by simp [he]), stepReports]
    simp only [hstep]
    by_cases h1 : r.framesRemaining ≤ 1
    · simp [h1]
    · simp [h1]

/-- A non-suppressible report with a live witness, for the C6 witness. -/
def hardReport : WitnessReport :=
  { canBeSuppressed := false, activeWitnesses := [7], framesRemaining := 5 }

/-- A suppressible report with no remaining witnesses, for the C6 witness. -/
def silencedReport : WitnessReport :=
  { canBeSuppressed := true, activeWitnesses := [], framesRemaining := 5 }

/-- Witness for C6 at concrete reports: eliminating a witness of a
non-suppressible report is a no-op, and a fully silenced suppressible report
is dropped by the sweep of the queue containing it. -/
theorem witnessReport_suppression_witness :
    (hardReport.canBeSuppressed = false ∧
      eliminateWitness hardReport 7 = (hardReport, false)) ∧
    (silencedReport.canBeSuppressed = true ∧ silencedReport.activeWitnesses = [] ∧
      silencedReport ∉ (stepReports [silencedReport]).1 ∧
      silencedReport ∉ (stepReports [silencedReport]).2) :=
  ⟨⟨rfl, (witnessReport_suppression hardReport 7 []).1 rfl⟩,
    ⟨rfl, rfl,
      ((witnessReport_suppression silencedReport 0 [silencedReport]).2.1 rfl rfl).1,
      ((witnessReport_suppression silencedReport 0 [silencedReport]).2.1 rfl rfl).2⟩⟩

/-- C9: a report queued straight from the `WitnessReport` constructor is
suppressible with an empty required-witness set, so `AllWitnessesEliminated`
already holds; the very first `StepReports` sweep therefore discards it —
whatever its countdown, and although no witness was ever eliminated — and it
is never returned as a ready report. -/
theorem freshReport_discarded (reportingGov victimGov : Option ℕ) (eventType : Int)
    (frames : Int) (system : Option ℕ) (impact : ℚ) (q : List WitnessReport) :
    allWitnessesEliminated
        (mkWitnessReport reportingGov victimGov eventType frames system impact) = true ∧
      mkWitnessReport reportingGov victimGov eventType frames system impact ∉
        (stepReports q).1 ∧
      mkWitnessReport reportingGov victimGov eventType frames system impact ∉
        (stepReports q).2 := by
  refine ⟨rfl, ?_, ?_⟩ <;> intro hmem
  · have := stepReports_not_eliminated q _ (Or.inl hmem)
    rw [show allWitnessesEliminated
        (mkWitnessReport reportingGov victimGov eventType frames system impact) = true
      from rfl] at this
    cases this
  · have := stepReports_not_eliminated q _ (Or.inr hmem)
    rw [show allWitnessesEliminated
        (mkWitnessReport reportingGov victimGov eventType frames system impact) = true
      from rfl] at this
    cases this

/-! ## EconomicState.cpp -/

/-- `EconomicStateType` (EconomicState.h). -/
inductive EconomicStateType where
  | STABLE
  | BOOM
  | BUST
  | SHORTAGE
  | SURPLUS
  | LOCKDOWN
deriving DecidableEq, Repr

/-- `EconomicEventType` (EconomicState.h). -/
inductive EconomicEventType where
  | MERCHANT_DESTROYED
  | PIRATE_DESTROYED
  | TRADE_COMPLETED
  | LARGE_PURCHASE
  | LARGE_SALE
  | SMUGGLING_DETECTED
  | CONVOY_ATTACKED
  | BLOCKADE_ACTIVE
  | RELIEF_DELIVERED
  | WAR_STARTED
  | WAR_ENDED
deriving DecidableEq, Repr

/-- `EconomicEvent` (EconomicState.h) with its default member values. -/
structure EconomicEvent where
  date : Int := 0
  type : EconomicEventType := .TRADE_COMPLETED
  magnitude : Int := 1
  commodity : String := ""
  description : String := ""
  playerCaused : Bool := false
deriving DecidableEq, Repr

/-- `EconomicConfig` (EconomicState.h) with its default member values. -/
structure EconomicConfig where
  boomRecoveryDays : Int := 14
  bustRecoveryDays : Int := 14
  shortageRecoveryDays : Int := 7
  surplusRecoveryDays : Int := 7
  lockdownRecoveryDays : Int := 21
  merchantLossThreshold : Int := 10
  pirateLossThreshold : Int := 20
  tradeVolumeThreshold : Int := 5000
  smugglingThreshold : Int := 50
  bulkTradeThreshold : Int := 500
  boomBuyModifier : ℚ := 9/10
  boomSellModifier : ℚ := 11/10
  bustBuyModifier : ℚ := 11/10
  bustSellModifier : ℚ := 9/10
  shortageModifier : ℚ := 3/2
  surplusModifier : ℚ := 7/10
  blackMarketBuyModifier : ℚ := 3/2
  blackMarketSellModifier : ℚ := 6/10
  blackMarketDetectionChance : ℚ := 15/100
  cascadeRadius : Int := 2
deriving DecidableEq, Repr

/-- `SystemEconomy` private state (EconomicState.h) with its default member
values. -/
structure SystemEconomy where
  state : EconomicStateType := .STABLE
  affectedCommodity : String := ""
  stateStrength : Int := 0
  stateChangeDate : Option Int := none
  merchantLosses : ℚ := 0
  pirateLosses : ℚ := 0
  tradeVolume : ℚ := 0
  smugglingLevel : ℚ := 0
  recentEvents : List EconomicEvent := []
  newsHeadline : String := ""
  newsDate : Option Int := none
  config : EconomicConfig := {}
  significantChange : Bool := false
deriving DecidableEq, Repr

/-- `SystemEconomy::MAX_EVENT_HISTORY`. -/
def MAX_EVENT_HISTORY : ℕ := 100

/-- `SystemEconomy::DAILY_COUNTER_DECAY` (= 0.85). -/
def DAILY_COUNTER_DECAY : ℚ := 85/100

/-- The external `System` as observed by the economy: `Danger()`,
`IsInhabited(nullptr)` and `DisplayName()`. -/
structure EconSystemInfo where
  danger : ℚ := 0
  isInhabited : Bool := false
  displayName : String := ""
deriving DecidableEq, Repr

/-- The stream of draws `SimulateNPCActivity` takes from the external random
source, in the order the source consumes them: three `Random::Real()` calls
guarding/scaling losses and kills (`r1`, `r2`, `r3`, `r4`) and one
`Random::Normal()` (`normal`). `Random::Real()` yields values in [0, 1). -/
structure NPCRand where
  r1 : ℚ := 0
  r2 : ℚ := 0
  r3 : ℚ := 0
  r4 : ℚ := 0
  normal : ℚ := 0
deriving DecidableEq, Repr

/-- `SystemEconomy::RecordEvent(const EconomicEvent &)`
(EconomicState.cpp:426-452). -/
def recordEvent (e : SystemEconomy) (event : EconomicEvent) : SystemEconomy :=
  let recents := e.recentEvents ++ [event]
  let recents := if recents.length > MAX_EVENT_HISTORY then recents.drop 1 else recents
  let e := { e with recentEvents := recents }
  match event.type with
  | .MERCHANT_DESTROYED => { e with merchantLosses := e.merchantLosses + (event.magnitude : ℚ) }
  | .PIRATE_DESTROYED => { e with pirateLosses := e.pirateLosses + (event.magnitude : ℚ) }
  | .TRADE_COMPLETED => { e with tradeVolume := e.tradeVolume + (event.magnitude : ℚ) }
  | .LARGE_PURCHASE => { e with tradeVolume := e.tradeVolume + (event.magnitude : ℚ) }
  | .LARGE_SALE => { e with tradeVolume := e.tradeVolume + (event.magnitude : ℚ) }
  | .SMUGGLING_DETECTED => { e with smugglingLevel := e.smugglingLevel + (event.magnitude : ℚ) }
  | _ => e

/-- `SystemEconomy::RecordEvent(type, magnitude, commodity, playerCaused)`
(EconomicState.cpp:456-465): builds the event (date left default) and records
it. -/
def recordEventTyped (e : SystemEconomy) (type : EconomicEventType)
    (magnitude : Int) (commodity : String) (playerCaused : Bool) : SystemEconomy :=
  recordEvent e
    { type := type, magnitude := magnitude, commodity := commodity,
      playerCaused := playerCaused }

/-- `SystemEconomy::GenerateNewsHeadline` (EconomicState.cpp:740-776),
returning the headline it stores. -/
def generateNewsHeadline (oldState newState : EconomicStateType)
    (system : Option EconSystemInfo) (affectedCommodity : String) : String :=
  let systemName := match system with
    | some s => s.displayName
    | none => "local system"
  match newState with
  | .STABLE =>
    match oldState with
    | .BOOM => "Economic growth stabilizes in " ++ systemName ++ "."
    | .BUST => "Economy recovers in " ++ systemName ++ " as trade resumes."
    | .LOCKDOWN => "Trade restrictions lifted in " ++ systemName ++ "."
    | _ => "Markets return to normal in " ++ systemName ++ "."
  | .BOOM => "Trade flourishing in " ++ systemName ++ ". Merchants report record profits."
  | .BUST => "Economic crisis in " ++ systemName ++ ". Merchants warn of convoy losses."
  | .SHORTAGE => "Supply shortage reported in " ++ systemName ++ ". " ++
      affectedCommodity ++ " prices soaring."
  | .SURPLUS => "Market glut in " ++ systemName ++ ". " ++
      affectedCommodity ++ " prices plummeting."
  | .LOCKDOWN => "Authorities impose trade lockdown in " ++ systemName ++
      ". Only black market operating."

/-- `SystemEconomy::EvaluateStateTransition` (EconomicState.cpp:571-615):
threshold checks in the fixed order loss→BUST, gain→BOOM, smuggling→LOCKDOWN
(each later check sees the state set by the earlier ones), returning the
updated economy and whether the state changed. -/
def evaluateStateTransition (date : Int) (system : Option EconSystemInfo)
    (e : SystemEconomy) : SystemEconomy × Bool :=
  let oldState := e.state
  let e :=
    if (e.state = .STABLE ∨ e.state = .BUST) ∧
        e.merchantLosses ≥ (e.config.merchantLossThreshold : ℚ) then
      { e with
        state := .BUST
        stateStrength := min 100 (cxxTrunc (e.merchantLosses * 10))
        stateChangeDate := some date }
    else e
  let e :=
    if e.state = .STABLE ∨ e.state = .BOOM then
      if e.pirateLosses ≥ (e.config.pirateLossThreshold : ℚ) then
        { e with
          state := .BOOM
          stateStrength := min 100 (cxxTrunc (e.pirateLosses * 5))
          stateChangeDate := some date }
      else if e.tradeVolume ≥ (e.config.tradeVolumeThreshold : ℚ) then
        { e with
          state := .BOOM
          stateStrength := min 100 (cxxTrunc (e.tradeVolume / 50))
          stateChangeDate := some date }
      else e
    else e
  let e :=
    if e.smugglingLevel ≥ (e.config.smugglingThreshold : ℚ) then
      { e with
        state := .LOCKDOWN
        stateStrength := min 100 (cxxTrunc (e.smugglingLevel * 2))
        stateChangeDate := some date }
    else e
  if e.state ≠ oldState then
    ({ e with newsHeadline := generateNewsHeadline oldState e.state system e.affectedCommodity },
      true)
  else (e, false)

/-- `SystemEconomy::ApplyRecovery` (EconomicState.cpp:619-660): strength
decays by `max(1, 100 / recoveryDays)`; reaching 0 forces the state back to
STABLE and clears the affected commodity. `100 / recoveryDays` is C++ `int`
division, which for the positive values involved agrees with `Int.div`
truncation. -/
def applyRecovery (date : Int) (e : SystemEconomy) : SystemEconomy × Bool :=
  if e.state = .STABLE then (e, false)
  else
    let recoveryDays : Int :=
      match e.state with
      | .BOOM => e.config.boomRecoveryDays
      | .BUST => e.config.bustRecoveryDays
      | .SHORTAGE => e.config.shortageRecoveryDays
      | .SURPLUS => e.config.surplusRecoveryDays
      | .LOCKDOWN => e.config.lockdownRecoveryDays
      | _ => 14
    let dailyRecovery := max 1 ((100 : Int).tdiv recoveryDays)
    let strength := max 0 (e.stateStrength - dailyRecovery)
    let e := { e with stateStrength := strength }
    if strength ≤ 0 then
      let oldState := e.state
      ({ e with
          state := .STABLE
          affectedCommodity := ""
          stateChangeDate := some date
          newsHeadline := generateNewsHeadline oldState .STABLE none "" },
        true)
    else (e, false)

/-- `SystemEconomy::SimulateNPCActivity` (EconomicState.cpp:704-736), with the
random draws passed in explicitly. -/
def simulateNPCActivity (date : Int) (system : Option EconSystemInfo)
    (rand : NPCRand) (e : SystemEconomy) : SystemEconomy :=
  match system with
  | none => e
  | some s =>
    let danger := s.danger
    let e :=
      if danger > 0 ∧ rand.r1 < danger * (1/1000) then
        { e with merchantLosses :=
            e.merchantLosses + ((1 + cxxTrunc (rand.r2 * danger * (1/100))) : ℚ) }
      else e
    let e :=
      if danger > 0 ∧ rand.r3 < 1/10 then
        let kills := cxxTrunc (rand.r4 * 2)
        if kills > 0 then { e with pirateLosses := e.pirateLosses + (kills : ℚ) } else e
      else e
    if s.isInhabited then
      let baseTraffic := 100 + rand.normal * 50
      let baseTraffic :=
        if e.state = .BOOM then baseTraffic * (3/2)
        else if e.state = .BUST then baseTraffic * (1/2)
        else if e.state = .LOCKDOWN then baseTraffic * (1/10)
        else baseTraffic
      { e with tradeVolume := e.tradeVolume + max 0 baseTraffic }
    else e

/-- `SystemEconomy::StepDaily` (EconomicState.cpp:469-485): geometric counter
decay first, then NPC activity, then threshold evaluation, then recovery if
nothing triggered. -/
def stepDaily (date : Int) (system : Option EconSystemInfo) (rand : NPCRand)
    (e : SystemEconomy) : SystemEconomy × Bool :=
  let e := { e with
    merchantLosses := e.merchantLosses * DAILY_COUNTER_DECAY
    pirateLosses := e.pirateLosses * DAILY_COUNTER_DECAY
    tradeVolume := e.tradeVolume * DAILY_COUNTER_DECAY
    smugglingLevel := e.smugglingLevel * DAILY_COUNTER_DECAY }
  let e := simulateNPCActivity date system rand e
  let r := evaluateStateTransition date system e
  let r :=
    if !r.2 ∧ r.1.state ≠ .STABLE then applyRecovery date r.1
    else r
  ({ r.1 with significantChange := r.2 }, r.2)

/-- `SystemEconomy::SetState` (EconomicState.cpp:489-504). -/
def setState (newState : EconomicStateType) (commodity : String) (strength : Int)
    (e : SystemEconomy) : SystemEconomy :=
  if e.state ≠ newState then
    { e with
      state := newState
      stateStrength := strength
      affectedCommodity := commodity
      significantChange := true }
  else
    let e := { e with stateStrength := max e.stateStrength strength }
    if commodity ≠ "" then { e with affectedCommodity := commodity } else e

/-! ### Claims C4, C5 -/

/-- C4: whenever `ApplyRecovery` brings the state strength to 0 in a
non-STABLE state, the economy transitions to STABLE and the affected
commodity is cleared. -/
theorem applyRecovery_stable_at_zero (date : Int) (e : SystemEconomy)
    (h : e.state ≠ EconomicStateType.STABLE)
    (h0 : (applyRecovery date e).1.stateStrength = 0) :
    (applyRecovery date e).1.state = EconomicStateType.STABLE ∧
      (applyRecovery date e).1.affectedCommodity = "" := by
  simp only [applyRecovery, if_neg h] at h0 ⊢
  split_ifs at h0 ⊢ with h1
  · exact ⟨rfl, rfl⟩
  · exfalso
    simp only at h0
    omega

/-- A depressed economy with a small residual strength, for the C4 witness. -/
def recoveringEconomy : SystemEconomy :=
  { state := .BUST, stateStrength := 5 }

/-- Witness for C4: with the default 14-day bust recovery, strength 5 decays
by max(1, 100/14) = 7 to 0, and the economy returns to STABLE with the
commodity cleared. -/
theorem applyRecovery_stable_at_zero_witness :
    (recoveringEconomy.state ≠ EconomicStateType.STABLE ∧
      (applyRecovery 1 recoveringEconomy).1.stateStrength = 0) ∧
    ((applyRecovery 1 recoveringEconomy).1.state = EconomicStateType.STABLE ∧
      (applyRecovery 1 recoveringEconomy).1.affectedCommodity = "") :=
  ⟨⟨by decide, by decide⟩,
    applyRecovery_stable_at_zero 1 recoveringEconomy (by decide) (by decide)⟩

/-- Record `k` merchant-loss events of magnitude 1 ("k merchant-loss events
accumulated the same day"). -/
def recordMerchantLosses : ℕ → SystemEconomy → SystemEconomy
  | 0, e => e
  | k + 1, e =>
    recordMerchantLosses k (recordEventTyped e .MERCHANT_DESTROYED 1 "" false)

/-- Field bookkeeping for `recordMerchantLosses`: only the merchant-loss
counter and the event history change. -/
theorem recordMerchantLosses_fields (k : ℕ) (e : SystemEconomy) :
    (recordMerchantLosses k e).merchantLosses = e.merchantLosses + k ∧
    (recordMerchantLosses k e).pirateLosses = e.pirateLosses ∧
    (recordMerchantLosses k e).tradeVolume = e.tradeVolume ∧
    (recordMerchantLosses k e).smugglingLevel = e.smugglingLevel ∧
    (recordMerchantLosses k e).state = e.state ∧
    (recordMerchantLosses k e).stateStrength = e.stateStrength ∧
    (recordMerchantLosses k e).config = e.config := by
  induction k generalizing e with
  | zero => simp [recordMerchantLosses]
  | succ k ih =>
    simp only [recordMerchantLosses]
    obtain ⟨h1, h2, h3, h4, h5, h6, h7⟩ :=
      ih (recordEventTyped e .MERCHANT_DESTROYED 1 "" false)
    rw [h1, h2, h3, h4, h5, h6, h7]
    refine ⟨?_, ?_, ?_, ?_, ?_, ?_, ?_⟩ <;>
        simp [recordEventTyped, recordEvent] <;>
      push_cast <;> ring

/-- Counterexample to C5 as stated: a STABLE economy with the default
`merchantLossThreshold = 10` that records 10 merchant-loss events (total
magnitude 10) during one day does NOT become BUST on the next daily step.
Under the tick ordering the claim itself cites — counter decay before any
threshold re-evaluation — the counter enters the evaluation as
10 × 0.85 = 8.5 < 10, so the threshold is missed and the state stays STABLE.
(The step is taken with no attached system, so no NPC activity is simulated,
exactly as the source behaves for a null system.) -/
theorem stepDaily_bust_scenario_counterexample :
    (stepDaily 1 none {} (recordMerchantLosses 10 {})).1.state = EconomicStateType.STABLE ∧
      EconomicStateType.STABLE ≠ EconomicStateType.BUST := by
  obtain ⟨h1, h2, h3, h4, h5, h6, h7⟩ := recordMerchantLosses_fields 10 {}
  refine ⟨?_, by decide⟩
  simp only [stepDaily, simulateNPCActivity, evaluateStateTransition, DAILY_COUNTER_DECAY]
  simp only [h1, h2, h3, h4, h5, h6, h7]
  norm_num

/-- C5 (amended): with decay applied before threshold evaluation, a STABLE
economy with `merchantLossThreshold = 10` needs merchant losses totalling 12
during the day: the next daily step evaluates the decayed counter
12 × 0.85 = 10.2 ≥ 10 and sets the state to BUST with strength
min(100, int(10.2 × 10)) = min(100, 102) = 100; with total magnitude exactly
10, the decayed counter is 8.5, the threshold is missed and the state remains
STABLE. -/
theorem stepDaily_bust_scenario_amended :
    (stepDaily 1 none {} (recordMerchantLosses 12 {})).1.state = EconomicStateType.BUST ∧
      (stepDaily 1 none {} (recordMerchantLosses 12 {})).1.stateStrength = 100 ∧
      (stepDaily 1 none {} (recordMerchantLosses 10 {})).1.state = EconomicStateType.STABLE := by
  obtain ⟨g1, g2, g3, g4, g5, g6, g7⟩ := recordMerchantLosses_fields 10 {}
  obtain ⟨h1, h2, h3, h4, h5, h6, h7⟩ := recordMerchantLosses_fields 12 {}
  have htr : min (100 : Int) (cxxTrunc (102 : ℚ)) = 100 := by
    norm_num [cxxTrunc]
  refine ⟨?_, ?_, ?_⟩ <;>
    · simp only [stepDaily, simulateNPCActivity, evaluateStateTransition, DAILY_COUNTER_DECAY]
      simp only [h1, h2, h3, h4, h5, h6, h7, g1, g2, g3, g4, g5, g6, g7]
      norm_num [htr]
      try simp
      try norm_num

/-! ### Claim C8 -/

/-- The public `SystemEconomy` operations quantified over by claim C8. -/
inductive EconOp where
  | record (event : EconomicEvent)
  | stepDay (date : Int) (system : Option EconSystemInfo) (rand : NPCRand)
  | force (newState : EconomicStateType) (commodity : String) (strength : Int)
  | recover (date : Int)
deriving Repr

/-- Apply one public operation. -/
def runEconOp (e : SystemEconomy) : EconOp → SystemEconomy
  | .record ev => recordEvent e ev
  | .stepDay d s r => (stepDaily d s r e).1
  | .force st c k => setState st c k e
  | .recover d => (applyRecovery d e).1

/-- Apply a sequence of public operations. -/
def runEconOps (e : SystemEconomy) (ops : List EconOp) : SystemEconomy :=
  ops.foldl runEconOp e

/-- The inputs under which the amended claim C8 holds: recorded events carry a
non-negative magnitude, forced states pass a strength within [0, 100], and the
scaling draws consumed by the NPC simulation are non-negative (as the
`Random::Real()` values in [0, 1) are). -/
def ValidEconOp : EconOp → Prop
  | .record ev => 0 ≤ ev.magnitude
  | .stepDay _ _ r => 0 ≤ r.r2 ∧ 0 ≤ r.r4
  | .force _ _ k => 0 ≤ k ∧ k ≤ 100
  | .recover _ => True

/-- The C8 invariant: strength within [0, 100] and all four rolling counters
non-negative. -/
def EconInv (e : SystemEconomy) : Prop :=
  0 ≤ e.stateStrength ∧ e.stateStrength ≤ 100 ∧
    0 ≤ e.merchantLosses ∧ 0 ≤ e.pirateLosses ∧
    0 ≤ e.tradeVolume ∧ 0 ≤ e.smugglingLevel

/-- Truncation of a non-negative value is non-negative. -/
theorem cxxTrunc_nonneg (q : ℚ) (h : 0 ≤ q) : 0 ≤ cxxTrunc q := by
  simp only [cxxTrunc, if_pos h]
  exact Int.floor_nonneg.mpr h

/-- `RecordEvent` preserves the invariant for non-negative magnitudes. -/
theorem econInv_recordEvent (e : SystemEconomy) (ev : EconomicEvent)
    (he : EconInv e) (hm : 0 ≤ ev.magnitude) : EconInv (recordEvent e ev) := by
  obtain ⟨s1, s2, c1, c2, c3, c4⟩ := he
  rcases ev with ⟨d, ty, mag, com, desc, pc⟩
  have hmq : (0 : ℚ) ≤ (mag : ℚ) := by exact_mod_cast hm
  cases ty <;>
    · simp only [recordEvent]
      refine ⟨s1, s2, ?_, ?_, ?_, ?_⟩ <;>
        first
          | exact c1
          | exact c2
          | exact c3
          | exact c4
          | exact add_nonneg c1 hmq
          | exact add_nonneg c2 hmq
          | exact add_nonneg c3 hmq
          | exact add_nonneg c4 hmq

/-- `SetState` preserves the invariant when the forced strength is in range. -/
theorem econInv_setState (e : SystemEconomy) (st : EconomicStateType)
    (c : String) (k : Int) (he : EconInv e) (hk : 0 ≤ k ∧ k ≤ 100) :
    EconInv (setState st c k e) := by
  obtain ⟨s1, s2, c1, c2, c3, c4⟩ := he
  unfold setState
  split_ifs
  · exact ⟨hk.1, hk.2, c1, c2, c3, c4⟩
  · exact ⟨le_trans s1 (le_max_left _ _), max_le s2 hk.2, c1, c2, c3, c4⟩
  · exact ⟨le_trans s1 (le_max_left _ _), max_le s2 hk.2, c1, c2, c3, c4⟩

/-- Clamped decreasing update stays within the upper bound. -/
theorem max_zero_sub_le (s D : Int) (hs : s ≤ 100) (hD : 1 ≤ D) :
    max 0 (s - D) ≤ 100 := by
  rw [max_le_iff]
  omega

/-- `ApplyRecovery` preserves the invariant. -/
theorem econInv_applyRecovery (date : Int) (e : SystemEconomy) (he : EconInv e) :
    EconInv (applyRecovery date e).1 := by
  obtain ⟨s1, s2, c1, c2, c3, c4⟩ := he
  simp only [applyRecovery]
  split_ifs with h1 h2
  · exact ⟨s1, s2, c1, c2, c3, c4⟩
  · exact ⟨le_max_left _ _, max_zero_sub_le _ _ s2 (le_max_left _ _), c1, c2, c3, c4⟩
  · exact ⟨le_max_left _ _, max_zero_sub_le _ _ s2 (le_max_left _ _), c1, c2, c3, c4⟩

/-- `SimulateNPCActivity` preserves the invariant when the scaling draws are
non-negative. -/
theorem econInv_simulateNPCActivity (date : Int) (sys : Option EconSystemInfo)
    (r : NPCRand) (e : SystemEconomy) (he : EconInv e) (hr2 : 0 ≤ r.r2) :
    EconInv (simulateNPCActivity date sys r e) := by
  obtain ⟨s1, s2, c1, c2, c3, c4⟩ := he
  cases sys with
  | none => exact ⟨s1, s2, c1, c2, c3, c4⟩
  | some s =>
    simp only [simulateNPCActivity]
    split_ifs <;>
      refine ⟨s1, s2, ?_, ?_, ?_, c4⟩ <;>
        first
          | exact c1
          | exact c2
          | exact c3
          | exact add_nonneg c3 (le_max_left _ _)
          | exact add_nonneg c2 (by exact_mod_cast le_of_lt (by assumption))
          | exact add_nonneg c1 (by
              have hd : s.danger > 0 ∧ r.r1 < s.danger * (1/1000) := by assumption
              have hx : (0 : Int) ≤ 1 + cxxTrunc (r.r2 * s.danger * (1/100)) := by
                have := cxxTrunc_nonneg (r.r2 * s.danger * (1/100))
                  (mul_nonneg (mul_nonneg hr2 (le_of_lt hd.1)) (by norm_num))
                omega
              exact_mod_cast hx)

/-- The invariant holds for a conditional when it holds for both branches. -/
theorem econInv_ite (c : Prop) [Decidable c] (a b : SystemEconomy)
    (ha : c → EconInv a) (hb : ¬c → EconInv b) : EconInv (if c then a else b) := by
  split_ifs with h
  exacts [ha h, hb h]

/-- The invariant holds after a state change whose strength is `min 100` of
the truncation of a non-negative quantity. -/
theorem econInv_strengthUpd (x : SystemEconomy) (hx : EconInv x)
    (st : EconomicStateType) (d : Option Int) (q : ℚ) (hq : 0 ≤ q) :
    EconInv { x with state := st, stateStrength := min 100 (cxxTrunc q), stateChangeDate := d } :=
  ⟨le_min (by norm_num) (cxxTrunc_nonneg _ hq), min_le_left _ _,
    hx.2.2.1, hx.2.2.2.1, hx.2.2.2.2.1, hx.2.2.2.2.2⟩

/-- The invariant passes through the final headline-and-flag wrapping of
`EvaluateStateTransition`. -/
theorem econInv_finalPair (c : Prop) [Decidable c] (x : SystemEconomy) (h : String)
    (hx : EconInv x) :
    EconInv ((if c then ({ x with newsHeadline := h }, true) else (x, false)).1) := by
  split_ifs <;> exact hx

/-- Invariant preservation for the merchant-loss (BUST) stage. -/
theorem econInv_merchantIte (x : SystemEconomy) (hx : EconInv x) (date : Int) :
    EconInv (if (x.state = .STABLE ∨ x.state = .BUST) ∧
        x.merchantLosses ≥ (x.config.merchantLossThreshold : ℚ) then
      { x with
        state := .BUST
        stateStrength := min 100 (cxxTrunc (x.merchantLosses * 10))
        stateChangeDate := some date }
    else x) :=
  econInv_ite _ _ _
    (fun _ => econInv_strengthUpd _ hx _ _ _ (mul_nonneg hx.2.2.1 (by norm_num)))
    (fun _ => hx)

/-- Invariant preservation for the pirate-loss / trade-volume (BOOM) stage. -/
theorem econInv_boomIte (x : SystemEconomy) (hx : EconInv x) (date : Int) :
    EconInv (if x.state = .STABLE ∨ x.state = .BOOM then
      if x.pirateLosses ≥ (x.config.pirateLossThreshold : ℚ) then
        { x with
          state := .BOOM
          stateStrength := min 100 (cxxTrunc (x.pirateLosses * 5))
          stateChangeDate := some date }
      else if x.tradeVolume ≥ (x.config.tradeVolumeThreshold : ℚ) then
        { x with
          state := .BOOM
          stateStrength := min 100 (cxxTrunc (x.tradeVolume / 50))
          stateChangeDate := some date }
      else x
    else x) := by
  refine econInv_ite _ _ _ (fun _ => ?_) (fun _ => hx)
  refine econInv_ite _ _ _
    (fun _ => econInv_strengthUpd _ hx _ _ _ (mul_nonneg hx.2.2.2.1 (by norm_num)))
    (fun _ => ?_)
  exact econInv_ite _ _ _
    (fun _ => econInv_strengthUpd _ hx _ _ _ (div_nonneg hx.2.2.2.2.1 (by norm_num)))
    (fun _ => hx)

/-- Invariant preservation for the smuggling (LOCKDOWN) stage. -/
theorem econInv_smugglingIte (x : SystemEconomy) (hx : EconInv x) (date : Int) :
    EconInv (if x.smugglingLevel ≥ (x.config.smugglingThreshold : ℚ) then
      { x with
        state := .LOCKDOWN
        stateStrength := min 100 (cxxTrunc (x.smugglingLevel * 2))
        stateChangeDate := some date }
    else x) :=
  econInv_ite _ _ _
    (fun _ => econInv_strengthUpd _ hx _ _ _ (mul_nonneg hx.2.2.2.2.2 (by norm_num)))
    (fun _ => hx)

/-- `EvaluateStateTransition` preserves the invariant: every strength it
computes is `min 100` of a truncation of a non-negative counter multiple. -/
theorem econInv_evaluateStateTransition (date : Int) (sys : Option EconSystemInfo)
    (e : SystemEconomy) (he : EconInv e) :
    EconInv (evaluateStateTransition date sys e).1 := by
  simp only [evaluateStateTransition]
  exact econInv_finalPair _ _ _
    (econInv_smugglingIte _ (econInv_boomIte _ (econInv_merchantIte _ he date) date) date)

/-- `StepDaily` preserves the invariant when the scaling draws are
non-negative. -/
theorem econInv_stepDaily (date : Int) (sys : Option EconSystemInfo)
    (r : NPCRand) (e : SystemEconomy) (he : EconInv e) (hr2 : 0 ≤ r.r2) :
    EconInv (stepDaily date sys r e).1 := by
  obtain ⟨s1, s2, c1, c2, c3, c4⟩ := he
  have hdecay : EconInv { e with
      merchantLosses := e.merchantLosses * DAILY_COUNTER_DECAY
      pirateLosses := e.pirateLosses * DAILY_COUNTER_DECAY
      tradeVolume := e.tradeVolume * DAILY_COUNTER_DECAY
      smugglingLevel := e.smugglingLevel * DAILY_COUNTER_DECAY } :=
    ⟨s1, s2, mul_nonneg c1 (by norm_num [DAILY_COUNTER_DECAY]),
      mul_nonneg c2 (by norm_num [DAILY_COUNTER_DECAY]),
      mul_nonneg c3 (by norm_num [DAILY_COUNTER_DECAY]),
      mul_nonneg c4 (by norm_num [DAILY_COUNTER_DECAY])⟩
  have hsim := econInv_simulateNPCActivity date sys r _ hdecay hr2
  have heval := econInv_evaluateStateTransition date sys _ hsim
  simp only [stepDaily]
  split_ifs with hc
  · exact econInv_applyRecovery date _ heval
  · exact heval

/-- C8 (amended): starting from any economy satisfying the invariant — in
particular the default-constructed one — every sequence of the public
operations `RecordEvent`, `StepDaily`, `SetState`, `ApplyRecovery` keeps the
state strength within [0, 100] and all four rolling counters non-negative
(hence in particular after every daily decay step), provided events carry
non-negative magnitudes, `SetState` is passed a strength within [0, 100], and
the NPC-simulation scaling draws are non-negative as `Random::Real()`
guarantees. Without those provisos the claim fails: see the counterexample. -/
theorem econ_invariant_preserved (e : SystemEconomy) (ops : List EconOp)
    (he : EconInv e) (hops : ∀ op ∈ ops, ValidEconOp op) :
    EconInv (runEconOps e ops) := by
  induction ops generalizing e with
  | nil => exact he
  | cons op rest ih =>
    have hop := hops op (List.mem_cons_self _ _)
    refine ih (runEconOp e op) ?_ (fun o ho => hops o (List.mem_cons_of_mem _ ho))
    cases op with
    | record ev => exact econInv_recordEvent e ev he hop
    | stepDay d s r => exact econInv_stepDaily d s r e he hop.1
    | force st c k => exact econInv_setState e st c k he hop
    | recover d => exact econInv_applyRecovery d e he

/-- Counterexample to C8 as stated: `SetState` does not clamp its strength
argument, so a single public `SetState(BOOM, "", 150)` call on the default
economy leaves `GetStateStrength() = 150`, outside [0, 100]. -/
theorem econ_invariant_counterexample :
    (runEconOps {} [EconOp.force EconomicStateType.BOOM "" 150]).stateStrength = 150 ∧
      ¬ ((runEconOps {} [EconOp.force EconomicStateType.BOOM "" 150]).stateStrength ≤ 100) := by
  constructor <;> simp [runEconOps, runEconOp, setState]

/-- Witness for C8 at a concrete input: the default economy, one valid event,
one forced state and one recovery step keep the invariant. -/
theorem econ_invariant_preserved_witness :
    (EconInv ({} : SystemEconomy) ∧
      ∀ op ∈ [EconOp.record { type := .MERCHANT_DESTROYED, magnitude := 3 },
        EconOp.force EconomicStateType.BOOM "food" 50, EconOp.recover 2],
        ValidEconOp op) ∧
    EconInv (runEconOps {} [EconOp.record { type := .MERCHANT_DESTROYED, magnitude := 3 },
      EconOp.force EconomicStateType.BOOM "food" 50, EconOp.recover 2]) := by
  have h1 : EconInv ({} : SystemEconomy) := by
    refine ⟨by norm_num, by norm_num, ?_, ?_, ?_, ?_⟩ <;> norm_num
  have h2 : ∀ op ∈ [EconOp.record { type := .MERCHANT_DESTROYED, magnitude := 3 },
      EconOp.force EconomicStateType.BOOM "food" 50, EconOp.recover 2],
      ValidEconOp op := by
    intro op hop
    fin_cases hop <;> simp [ValidEconOp]
  exact ⟨⟨h1, h2⟩, econ_invariant_preserved _ _ h1 h2⟩

/-! ## Cascade propagation (claim C3) -/

/-- Nodes reachable from `start` within `d` hops in the location graph
`links` (the `System::Links()` adjacency): `ball d \\ ball (d-1)` is exactly
the set of nodes at hop distance `d`. -/
def ball {n : ℕ} (links : Fin n → List (Fin n)) (start : Fin n) : ℕ → Finset (Fin n)
  | 0 => {start}
  | d + 1 =>
    ball links start d ∪ (ball links start d).biUnion (fun x => (links x).toFinset)

/-- The inner neighbor loop of `SystemEconomy::PropagateEffects`
(EconomicState.cpp:683-698): each not-yet-visited neighbor is marked visited;
when the propagated magnitude `pmag` is positive it is also recorded and
enqueued. Returns the grown visited set and the list of newly
recorded-and-enqueued neighbors (the recorded magnitude and queued distance
are attached by the caller `bfsAux`). -/
def expand {n : ℕ} (visited : Finset (Fin n)) (pmag : ℕ) :
    List (Fin n) → Finset (Fin n) × List (Fin n)
  | [] => (visited, [])
  | nb :: rest =>
    if nb ∈ visited then expand visited pmag rest
    else if pmag = 0 then expand (insert nb visited) pmag rest
    else
      ((expand (insert nb visited) pmag rest).1,
        nb :: (expand (insert nb visited) pmag rest).2)

theorem expand_fst {n : ℕ} (visited : Finset (Fin n)) (pmag : ℕ) (l : List (Fin n)) :
    (expand visited pmag l).1 = visited ∪ l.toFinset := by
  induction l generalizing visited with
  | nil => simp [expand]
  | cons nb rest ih =>
    by_cases h1 : nb ∈ visited
    · rw [expand, if_pos h1, ih]
      ext x
      simp only [Finset.mem_union, List.toFinset_cons, Finset.mem_insert, List.mem_toFinset]
      constructor
      · rintro (h | h)
        · exact Or.inl h
        · exact Or.inr (Or.inr h)
      · rintro (h | rfl | h)
        · exact Or.inl h
        · exact Or.inl h1
        · exact Or.inr h
    · have key : ∀ b : Finset (Fin n) × List (Fin n), b.1 = (insert nb visited) ∪ rest.toFinset →
          b.1 = visited ∪ (nb :: rest).toFinset := by
        intro b hb
        rw [hb]
        ext x
        simp only [Finset.mem_union, Finset.mem_insert, List.toFinset_cons, List.mem_toFinset]
        tauto
      by_cases h2 : pmag = 0
      · rw [expand, if_neg h1, if_pos h2]
        exact key _ (ih _)
      · rw [expand, if_neg h1, if_neg h2]
        exact key _ (ih _)

theorem expand_snd_mem {n : ℕ} (visited : Finset (Fin n)) (pmag : ℕ) (l : List (Fin n))
    (x : Fin n) :
    x ∈ (expand visited pmag l).2 ↔ x ∈ l ∧ x ∉ visited ∧ pmag ≠ 0 := by
  induction l generalizing visited with
  | nil => simp [expand]
  | cons nb rest ih =>
    by_cases h1 : nb ∈ visited
    · rw [expand, if_pos h1, ih]
      simp only [List.mem_cons]
      constructor
      · rintro ⟨h, hv, hp⟩
        exact ⟨Or.inr h, hv, hp⟩
      · rintro ⟨h | h, hv, hp⟩
        · exact absurd h1 (h ▸ hv)
        · exact ⟨h, hv, hp⟩
    · by_cases h2 : pmag = 0
      · rw [expand, if_neg h1, if_pos h2, ih]
        simp [h2]
      · rw [expand, if_neg h1, if_neg h2]
        simp only [List.mem_cons, ih, Finset.mem_insert]
        constructor
        · rintro (rfl | ⟨h, hv, hp⟩)
          · exact ⟨Or.inl rfl, h1, h2⟩
          · exact ⟨Or.inr h, fun hx => hv (Or.inr hx), hp⟩
        · rintro ⟨h | h, hv, hp⟩
          · exact Or.inl h
          · by_cases hx : x = nb
            · exact Or.inl hx
            · exact Or.inr ⟨h, fun hins => (by
                rcases hins with hh | hh
                · exact hx hh
                · exact hv hh), hp⟩

theorem expand_card {n : ℕ} (visited : Finset (Fin n)) (pmag : ℕ) (l : List (Fin n)) :
    visited.card + (expand visited pmag l).2.length ≤ (expand visited pmag l).1.card := by
  induction l generalizing visited with
  | nil => simp [expand]
  | cons nb rest ih =>
    by_cases h1 : nb ∈ visited
    · rw [expand, if_pos h1]
      exact ih visited
    · by_cases h2 : pmag = 0
      · rw [expand, if_neg h1, if_pos h2]
        have h := ih (insert nb visited)
        have hc : visited.card ≤ (insert nb visited).card :=
          Finset.card_le_card (Finset.subset_insert _ _)
        omega
      · rw [expand, if_neg h1, if_neg h2]
        have h := ih (insert nb visited)
        rw [Finset.card_insert_of_not_mem h1] at h
        simp only [List.length_cons]
        omega

theorem expand_subset {n : ℕ} (visited : Finset (Fin n)) (pmag : ℕ) (l : List (Fin n)) :
    visited ⊆ (expand visited pmag l).1 := by
  rw [expand_fst]
  exact Finset.subset_union_left

/-- The BFS while-loop of `SystemEconomy::PropagateEffects`
(EconomicState.cpp:675-699), returning the list of (system, magnitude)
downstream events recorded via `GetSystemEconomy(neighbor).RecordEvent`.
The C++ `magnitude / (1 << (distance + 1))` is `m / 2 ^ (distance + 1)`.
Total by well-founded recursion on (unvisited nodes, queue length) — the
visited set guarantees termination on every finite graph, cyclic included. -/
def bfsAux {n : ℕ} (links : Fin n → List (Fin n)) (R m : ℕ) (visited : Finset (Fin n))
    (queue : List (Fin n × ℕ)) : List (Fin n × ℕ) :=
  match queue with
  | [] => []
  | (current, distance) :: rest =>
    if R ≤ distance then bfsAux links R m visited rest
    else
      (expand visited (m / 2 ^ (distance + 1)) (links current)).2.map
          (fun nb => (nb, m / 2 ^ (distance + 1))) ++
        bfsAux links R m (expand visited (m / 2 ^ (distance + 1)) (links current)).1
          (rest ++ (expand visited (m / 2 ^ (distance + 1)) (links current)).2.map
            (fun nb => (nb, distance + 1)))
termination_by (n + 1 - visited.card, queue.length)
decreasing_by
  · apply Prod.Lex.right
    simp
  · rcases Nat.lt_or_ge visited.card
      ((expand visited (m / 2 ^ (distance + 1)) (links current)).1.card) with h | h
    · apply Prod.Lex.left
      have hle : (expand visited (m / 2 ^ (distance + 1)) (links current)).1.card ≤ n := by
        have := Finset.card_le_univ (expand visited (m / 2 ^ (distance + 1)) (links current)).1
        simpa using this
      omega
    · have hsub := expand_subset visited (m / 2 ^ (distance + 1)) (links current)
      have hcard : (expand visited (m / 2 ^ (distance + 1)) (links current)).1.card =
          visited.card :=
        le_antisymm h (Finset.card_le_card hsub)
      have hlen := expand_card visited (m / 2 ^ (distance + 1)) (links current)
      rw [hcard] at *
      apply Prod.Lex.right
      simp only [List.length_append, List.length_map, List.length_cons]
      omega

/-- `SystemEconomy::PropagateEffects` (EconomicState.cpp:664-700): the guard
returns nothing for a non-positive radius or magnitude (modelled by the `ℕ`
zero), otherwise the BFS runs from the start node with it already visited at
distance 0. -/
def propagateEffects {n : ℕ} (links : Fin n → List (Fin n)) (start : Fin n)
    (R m : ℕ) : List (Fin n × ℕ) :=
  if R = 0 ∨ m = 0 then [] else bfsAux links R m {start} [(start, 0)]

theorem ball_mono_succ {n : ℕ} (links : Fin n → List (Fin n)) (start : Fin n) (d : ℕ) :
    ball links start d ⊆ ball links start (d + 1) := by
  rw [ball]
  exact Finset.subset_union_left

theorem ball_mono {n : ℕ} (links : Fin n → List (Fin n)) (start : Fin n)
    {a b : ℕ} (h : a ≤ b) : ball links start a ⊆ ball links start b := by
  induction b with
  | zero => simpa [Nat.le_zero.mp h]
  | succ b ih =>
    rcases Nat.lt_or_ge a (b + 1) with h1 | h1
    · exact subset_trans (ih (Nat.lt_succ_iff.mp h1)) (ball_mono_succ links start b)
    · have : a = b + 1 := le_antisymm h h1
      subst this
      exact subset_rfl

theorem start_mem_ball {n : ℕ} (links : Fin n → List (Fin n)) (start : Fin n) (d : ℕ) :
    start ∈ ball links start d :=
  ball_mono links start (Nat.zero_le d) (by simp [ball])

theorem mem_ball_succ {n : ℕ} (links : Fin n → List (Fin n)) (start : Fin n)
    (d : ℕ) (y : Fin n) :
    y ∈ ball links start (d + 1) ↔
      y ∈ ball links start d ∨ ∃ x ∈ ball links start d, y ∈ links x := by
  rw [ball]
  simp [Finset.mem_union, Finset.mem_biUnion, List.mem_toFinset]

/-- Every member of a ball has a well-defined exact hop distance. -/
theorem ball_exact {n : ℕ} (links : Fin n → List (Fin n)) (start : Fin n)
    {d : ℕ} {y : Fin n} (h : y ∈ ball links start d) :
    ∃ s, s ≤ d ∧ y ∈ ball links start s ∧ (s = 0 ∨ y ∉ ball links start (s - 1)) := by
  induction d with
  | zero => exact ⟨0, le_refl _, h, Or.inl rfl⟩
  | succ d ih =>
    by_cases hd : y ∈ ball links start d
    · obtain ⟨s, hs1, hs2, hs3⟩ := ih hd
      exact ⟨s, Nat.le_succ_of_le hs1, hs2, hs3⟩
    · exact ⟨d + 1, le_refl _, h, Or.inr (by simpa using hd)⟩

/-- Exact hop distances are unique. -/
theorem exact_unique {n : ℕ} (links : Fin n → List (Fin n)) (start : Fin n)
    {a b : ℕ} {y : Fin n}
    (ha1 : y ∈ ball links start a) (ha2 : a = 0 ∨ y ∉ ball links start (a - 1))
    (hb1 : y ∈ ball links start b) (hb2 : b = 0 ∨ y ∉ ball links start (b - 1)) :
    a = b := by
  rcases Nat.lt_trichotomy a b with h | h | h
  · rcases hb2 with rfl | hb2
    · omega
    · exact absurd (ball_mono links start (by omega : a ≤ b - 1) ha1) hb2
  · exact h
  · rcases ha2 with rfl | ha2
    · omega
    · exact absurd (ball_mono links start (by omega : b ≤ a - 1) hb1) ha2

/-- Propagated magnitude is antitone in the hop distance. -/
theorem pm_anti (m : ℕ) {a b : ℕ} (h : a ≤ b) : m / 2 ^ b ≤ m / 2 ^ a :=
  Nat.div_le_div_left (Nat.pow_le_pow_right (by norm_num) h) (Nat.pos_pow_of_pos a (by norm_num))

/-- The loop invariant of the cascade BFS: the queue is a two-level FIFO
frontier of nodes with exact hop distances, live magnitudes and in-radius
distances; every ball whose layer the frontier has passed is fully visited;
and every visited node is either still queued or fully expanded. -/
structure BfsInv {n : ℕ} (links : Fin n → List (Fin n)) (start : Fin n) (R m : ℕ)
    (visited : Finset (Fin n)) (queue : List (Fin n × ℕ)) : Prop where
  sorted : List.Sorted (· ≤ ·) (queue.map Prod.snd)
  twoLevel : ∀ p ∈ queue, ∀ q0, queue.head? = some q0 → p.2 ≤ q0.2 + 1
  mem_vis : ∀ p ∈ queue, p.1 ∈ visited
  inBall : ∀ p ∈ queue, p.1 ∈ ball links start p.2
  exactDist : ∀ p ∈ queue, p.2 = 0 ∨ p.1 ∉ ball links start (p.2 - 1)
  pmPos : ∀ p ∈ queue, 0 < m / 2 ^ p.2
  distLe : ∀ p ∈ queue, p.2 ≤ R
  complete : ∀ s, 0 < m / 2 ^ s → s ≤ R → (∀ p ∈ queue, s ≤ p.2) → queue ≠ [] →
    ball links start s ⊆ visited
  handled : ∀ y ∈ visited, ∀ s, y ∈ ball links start s →
    (s = 0 ∨ y ∉ ball links start (s - 1)) → 0 < m / 2 ^ s → s < R →
    ((y, s) ∈ queue ∨ ∀ nb ∈ links y, nb ∈ visited)

/-- Skipping an out-of-radius node preserves the invariant. -/
theorem bfsInv_skip {n : ℕ} {links : Fin n → List (Fin n)} {start : Fin n} {R m : ℕ}
    {visited : Finset (Fin n)} {current : Fin n} {d0 : ℕ} {rest : List (Fin n × ℕ)}
    (hInv : BfsInv links start R m visited ((current, d0) :: rest)) (hR : R ≤ d0) :
    BfsInv links start R m visited rest := by
  have hsorted := hInv.sorted
  simp only [List.map_cons] at hsorted
  have hmin : ∀ p ∈ rest, d0 ≤ p.2 := by
    intro p hp
    exact (List.sorted_cons.mp hsorted).1 p.2 (List.mem_map_of_mem Prod.snd hp)
  refine ⟨(List.sorted_cons.mp hsorted).2, ?_, ?_, ?_, ?_, ?_, ?_, ?_, ?_⟩
  · intro p hp q0 hq0
    have hq0m : q0 ∈ rest := List.mem_of_mem_head? hq0
    have h1 : p.2 ≤ d0 + 1 :=
      hInv.twoLevel p (List.mem_cons_of_mem _ hp) (current, d0) rfl
    have h2 : d0 ≤ q0.2 := hmin q0 hq0m
    omega
  · exact fun p hp => hInv.mem_vis p (List.mem_cons_of_mem _ hp)
  · exact fun p hp => hInv.inBall p (List.mem_cons_of_mem _ hp)
  · exact fun p hp => hInv.exactDist p (List.mem_cons_of_mem _ hp)
  · exact fun p hp => hInv.pmPos p (List.mem_cons_of_mem _ hp)
  · exact fun p hp => hInv.distLe p (List.mem_cons_of_mem _ hp)
  · intro s hs1 hs2 hs3 hs4
    rcases le_or_lt s d0 with hle | hlt
    · refine hInv.complete s hs1 hs2 ?_ (by simp)
      intro p hp
      rcases List.mem_cons.mp hp with rfl | hp'
      · exact hle
      · exact hs3 p hp'
    · exfalso
      obtain ⟨q0, hq0⟩ := List.exists_mem_of_ne_nil rest hs4
      have h1 : s ≤ q0.2 := hs3 q0 hq0
      have h2 : q0.2 ≤ d0 + 1 :=
        hInv.twoLevel q0 (List.mem_cons_of_mem _ hq0) (current, d0) rfl
      omega
  · intro y hy s hball hex hpm hsR
    rcases hInv.handled y hy s hball hex hpm hsR with hq | hnb
    · rcases List.mem_cons.mp hq with heq | hq'
      · exfalso
        have : s = d0 := congrArg Prod.snd heq
        omega
      · exact Or.inl hq'
    · exact Or.inr hnb

/-- Constant-valued lists are sorted. -/
theorem sorted_map_const {α : Type} (l : List α) (k : ℕ) :
    List.Sorted (· ≤ ·) (l.map (fun _ => k)) := by
  induction l with
  | nil => simp
  | cons a t ih =>
    rw [List.map_cons, List.sorted_cons]
    refine ⟨?_, ih⟩
    intro b hb
    obtain ⟨x, hx, rfl⟩ := List.mem_map.mp hb
    exact le_refl _

/-- Expanding the head of the queue preserves the invariant. -/
theorem bfsInv_expand {n : ℕ} {links : Fin n → List (Fin n)} {start : Fin n} {R m : ℕ}
    {visited : Finset (Fin n)} {current : Fin n} {d0 : ℕ} {rest : List (Fin n × ℕ)}
    (hInv : BfsInv links start R m visited ((current, d0) :: rest)) (hR : d0 < R) :
    BfsInv links start R m (expand visited (m / 2 ^ (d0 + 1)) (links current)).1
      (rest ++ (expand visited (m / 2 ^ (d0 + 1)) (links current)).2.map
        (fun nb => (nb, d0 + 1))) := by
  have hsorted := hInv.sorted
  simp only [List.map_cons] at hsorted
  have hmin : ∀ p ∈ rest, d0 ≤ p.2 := by
    intro p hp
    exact (List.sorted_cons.mp hsorted).1 p.2 (List.mem_map_of_mem Prod.snd hp)
  have hlev : ∀ p ∈ rest, p.2 ≤ d0 + 1 := fun p hp =>
    hInv.twoLevel p (List.mem_cons_of_mem _ hp) (current, d0) rfl
  have hcball : current ∈ ball links start d0 := hInv.inBall (current, d0) (List.mem_cons_self _ _)
  have hpmd0 : 0 < m / 2 ^ d0 := hInv.pmPos (current, d0) (List.mem_cons_self _ _)
  have hd0R : d0 ≤ R := hInv.distLe (current, d0) (List.mem_cons_self _ _)
  have F1 : ball links start d0 ⊆ visited := by
    refine hInv.complete d0 hpmd0 hd0R ?_ (by simp)
    intro p hp
    rcases List.mem_cons.mp hp with rfl | hp'
    · exact le_refl _
    · exact hmin p hp'
  have hfst := expand_fst visited (m / 2 ^ (d0 + 1)) (links current)
  have Fpush : ∀ x ∈ (expand visited (m / 2 ^ (d0 + 1)) (links current)).2,
      x ∈ links current ∧ x ∉ visited ∧ m / 2 ^ (d0 + 1) ≠ 0 :=
    fun x hx => (expand_snd_mem visited _ (links current) x).mp hx
  have F3 : ∀ x ∈ (expand visited (m / 2 ^ (d0 + 1)) (links current)).2,
      x ∈ ball links start (d0 + 1) := by
    intro x hx
    exact (mem_ball_succ links start d0 x).mpr (Or.inr ⟨current, hcball, (Fpush x hx).1⟩)
  have F4 : ∀ x ∈ (expand visited (m / 2 ^ (d0 + 1)) (links current)).2,
      x ∉ ball links start d0 :=
    fun x hx h => (Fpush x hx).2.1 (F1 h)
  have hsub : visited ⊆ (expand visited (m / 2 ^ (d0 + 1)) (links current)).1 :=
    expand_subset _ _ _
  have hpushmem : ∀ x ∈ (expand visited (m / 2 ^ (d0 + 1)) (links current)).2,
      x ∈ (expand visited (m / 2 ^ (d0 + 1)) (links current)).1 := by
    intro x hx
    rw [hfst]
    exact Finset.mem_union_right _ (List.mem_toFinset.mpr (Fpush x hx).1)
  have hmemq : ∀ p, p ∈ rest ++ (expand visited (m / 2 ^ (d0 + 1)) (links current)).2.map
      (fun nb => (nb, d0 + 1)) →
      p ∈ rest ∨ ∃ nb ∈ (expand visited (m / 2 ^ (d0 + 1)) (links current)).2,
        p = (nb, d0 + 1) := by
    intro p hp
    rcases List.mem_append.mp hp with h | h
    · exact Or.inl h
    · obtain ⟨nb, hnb, rfl⟩ := List.mem_map.mp h
      exact Or.inr ⟨nb, hnb, rfl⟩
  have hge : ∀ p ∈ rest ++ (expand visited (m / 2 ^ (d0 + 1)) (links current)).2.map
      (fun nb => (nb, d0 + 1)), d0 ≤ p.2 := by
    intro p hp
    rcases hmemq p hp with h | ⟨nb, hnb, rfl⟩
    · exact hmin p h
    · omega
  have hle2 : ∀ p ∈ rest ++ (expand visited (m / 2 ^ (d0 + 1)) (links current)).2.map
      (fun nb => (nb, d0 + 1)), p.2 ≤ d0 + 1 := by
    intro p hp
    rcases hmemq p hp with h | ⟨nb, hnb, rfl⟩
    · exact hlev p h
    · exact le_refl _
  refine ⟨?_, ?_, ?_, ?_, ?_, ?_, ?_, ?_, ?_⟩
  · -- sorted
    rw [List.map_append, List.map_map]
    show List.Pairwise _ _
    rw [List.pairwise_append]
    refine ⟨(List.sorted_cons.mp hsorted).2, ?_, ?_⟩
    · exact sorted_map_const _ _
    · intro a ha b hb
      obtain ⟨p, hp, rfl⟩ := List.mem_map.mp ha
      obtain ⟨x, hx, rfl⟩ := List.mem_map.mp hb
      exact hlev p hp
  · -- twoLevel
    intro p hp q0 hq0
    have hq0m := List.mem_of_mem_head? hq0
    have h1 := hle2 p hp
    have h2 := hge q0 hq0m
    omega
  · -- mem_vis
    intro p hp
    rcases hmemq p hp with h | ⟨nb, hnb, rfl⟩
    · exact hsub (hInv.mem_vis p (List.mem_cons_of_mem _ h))
    · exact hpushmem nb hnb
  · -- inBall
    intro p hp
    rcases hmemq p hp with h | ⟨nb, hnb, rfl⟩
    · exact hInv.inBall p (List.mem_cons_of_mem _ h)
    · exact F3 nb hnb
  · -- exactDist
    intro p hp
    rcases hmemq p hp with h | ⟨nb, hnb, rfl⟩
    · exact hInv.exactDist p (List.mem_cons_of_mem _ h)
    · right
      simpa using F4 nb hnb
  · -- pmPos
    intro p hp
    rcases hmemq p hp with h | ⟨nb, hnb, rfl⟩
    · exact hInv.pmPos p (List.mem_cons_of_mem _ h)
    · exact Nat.pos_of_ne_zero (Fpush nb hnb).2.2
  · -- distLe
    intro p hp
    rcases hmemq p hp with h | ⟨nb, hnb, rfl⟩
    · exact hInv.distLe p (List.mem_cons_of_mem _ h)
    · omega
  · -- complete
    intro s hs1 hs2 hs3 hs4
    rcases le_or_lt s d0 with hle | hlt
    · refine subset_trans (hInv.complete s hs1 hs2 ?_ (by simp)) hsub
      intro p hp
      rcases List.mem_cons.mp hp with rfl | hp'
      · exact hle
      · exact le_trans (hs3 p (List.mem_append_left _ hp')) (le_refl _)
    · -- s = d0 + 1
      obtain ⟨q0, hq0⟩ := List.exists_mem_of_ne_nil _ hs4
      have hseq : s = d0 + 1 := le_antisymm (le_trans (hs3 q0 hq0) (hle2 q0 hq0)) hlt
      subst hseq
      intro y hy
      rcases (mem_ball_succ links start d0 y).mp hy with hyd0 | ⟨z, hz, hyz⟩
      · exact hsub (F1 hyd0)
      · have hzvis : z ∈ visited := F1 hz
        obtain ⟨sz, hsz1, hsz2, hsz3⟩ := ball_exact links start hz
        have hpmz : 0 < m / 2 ^ sz := lt_of_lt_of_le hpmd0 (pm_anti m hsz1)
        have hszR : sz < R := lt_of_le_of_lt hsz1 hR
        rcases hInv.handled z hzvis sz hsz2 hsz3 hpmz hszR with hq | hnb
        · rcases List.mem_cons.mp hq with heq | hq'
          · have hz1 : z = current := congrArg Prod.fst heq
            subst hz1
            rw [hfst]
            exact Finset.mem_union_right _ (List.mem_toFinset.mpr hyz)
          · exfalso
            have := hs3 (z, sz) (List.mem_append_left _ hq')
            simp only at this
            omega
        · exact hsub (hnb y hyz)
  · -- handled
    intro y hy s hball hex hpm hsR
    rw [hfst] at hy
    by_cases hyv : y ∈ visited
    · rcases hInv.handled y hyv s hball hex hpm hsR with hq | hnb
      · rcases List.mem_cons.mp hq with heq | hq'
        · have hy1 : y = current := congrArg Prod.fst heq
          have hy2 : s = d0 := congrArg Prod.snd heq
          subst hy1; subst hy2
          right
          intro nb hnb
          rw [hfst]
          exact Finset.mem_union_right _ (List.mem_toFinset.mpr hnb)
        · exact Or.inl (List.mem_append_left _ hq')
      · exact Or.inr (fun nb hnb' => hsub (hnb nb hnb'))
    · -- newly discovered neighbor of current
      have hylinks : y ∈ links current := by
        rcases Finset.mem_union.mp hy with h | h
        · exact absurd h hyv
        · exact List.mem_toFinset.mp h
      have hyball : y ∈ ball links start (d0 + 1) :=
        (mem_ball_succ links start d0 y).mpr (Or.inr ⟨current, hcball, hylinks⟩)
      have hynot : y ∉ ball links start d0 := fun h => hyv (F1 h)
      have hseq : s = d0 + 1 :=
        exact_unique links start hball hex hyball (Or.inr (by simpa using hynot))
      subst hseq
      left
      refine List.mem_append_right _ ?_
      refine List.mem_map.mpr ⟨y, ?_, rfl⟩
      exact (expand_snd_mem visited _ (links current) y).mpr
        ⟨hylinks, hyv, Nat.pos_iff_ne_zero.mp hpm⟩

/-- Soundness of the cascade BFS: under the invariant, every recorded event
hits an unvisited node at its exact hop distance d ∈ [1, R] with magnitude
`m / 2 ^ d > 0`. -/
theorem bfsAux_sound {n : ℕ} (links : Fin n → List (Fin n)) (start : Fin n) (R m : ℕ)
    (visited : Finset (Fin n)) (queue : List (Fin n × ℕ))
    (hInv : BfsInv links start R m visited queue) :
    ∀ p ∈ bfsAux links R m visited queue,
      p.1 ∉ visited ∧ ∃ d, 1 ≤ d ∧ d ≤ R ∧ p.1 ∈ ball links start d ∧
        p.1 ∉ ball links start (d - 1) ∧ p.2 = m / 2 ^ d ∧ 0 < p.2 := by
  induction visited, queue using bfsAux.induct links R m with
  | case1 visited =>
    intro p hp
    rw [bfsAux] at hp
    cases hp
  | case2 visited current distance rest hRd ih =>
    intro p hp
    rw [bfsAux, if_pos hRd] at hp
    exact ih (bfsInv_skip hInv hRd) p hp
  | case3 visited current distance rest hRd ih =>
    have hdR : distance < R := Nat.lt_of_not_le hRd
    intro p hp
    rw [bfsAux, if_neg hRd] at hp
    have hInv' := bfsInv_expand hInv hdR
    rcases List.mem_append.mp hp with hrec | hrecur
    · obtain ⟨nb, hnb, rfl⟩ := List.mem_map.mp hrec
      have hmem := (expand_snd_mem visited _ (links current) nb).mp hnb
      have hcball : current ∈ ball links start distance :=
        hInv.inBall (current, distance) (List.mem_cons_self _ _)
      have hball : nb ∈ ball links start (distance + 1) :=
        (mem_ball_succ links start distance nb).mpr (Or.inr ⟨current, hcball, hmem.1⟩)
      have hF1 : ball links start distance ⊆ visited := by
        have hsorted := hInv.sorted
        simp only [List.map_cons] at hsorted
        refine hInv.complete distance
          (hInv.pmPos (current, distance) (List.mem_cons_self _ _))
          (hInv.distLe (current, distance) (List.mem_cons_self _ _)) ?_ (by simp)
        intro q hq
        rcases List.mem_cons.mp hq with rfl | hq'
        · exact le_refl _
        · exact (List.sorted_cons.mp hsorted).1 q.2 (List.mem_map_of_mem Prod.snd hq')
      refine ⟨hmem.2.1, distance + 1, by omega, by omega, hball, ?_, rfl,
        Nat.pos_of_ne_zero hmem.2.2⟩
      simpa using fun h => hmem.2.1 (hF1 h)
    · have h := ih hInv' p hrecur
      exact ⟨fun hv => h.1 (expand_subset _ _ _ hv), h.2⟩

/-- C3: every downstream event recorded by `SystemEconomy::PropagateEffects`
from `start` with cascade radius R ≥ 1 and magnitude m ≥ 1 hits a location
other than `start`, at some hop distance d with 1 ≤ d ≤ R (membership in
`ball links start d` but not `ball links start (d-1)` states that the hop
distance is exactly d), and carries magnitude `m / 2 ^ d` (integer division,
i.e. `floor(m / 2^d)`), which is positive — propagation along a path stops
before the magnitude reaches 0. The traversal itself is a total function on
every finite location graph, cyclic ones included (the well-founded recursion
of `bfsAux` on the visited set is its termination argument). -/
theorem propagateEffects_records {n : ℕ} (links : Fin n → List (Fin n)) (start : Fin n)
    (R m : ℕ) (hR : 1 ≤ R) (hm : 1 ≤ m) :
    ∀ p ∈ propagateEffects links start R m,
      p.1 ≠ start ∧ ∃ d, 1 ≤ d ∧ d ≤ R ∧ p.1 ∈ ball links start d ∧
        p.1 ∉ ball links start (d - 1) ∧ p.2 = m / 2 ^ d ∧ 0 < p.2 := by
  intro p hp
  rw [propagateEffects, if_neg (by omega : ¬(R = 0 ∨ m = 0))] at hp
  have hInv0 : BfsInv links start R m {start} [(start, 0)] := by
    refine ⟨by simp, ?_, ?_, ?_, ?_, ?_, ?_, ?_, ?_⟩
    · intro q hq q0 hq0
      simp only [List.mem_singleton] at hq
      simp only [List.head?_cons, Option.some.injEq] at hq0
      subst hq
      subst hq0
      omega
    · intro q hq
      simp only [List.mem_singleton] at hq
      subst hq
      exact Finset.mem_singleton_self start
    · intro q hq
      simp only [List.mem_singleton] at hq
      subst hq
      exact start_mem_ball links start 0
    · intro q hq
      simp only [List.mem_singleton] at hq
      subst hq
      exact Or.inl rfl
    · intro q hq
      simp only [List.mem_singleton] at hq
      subst hq
      simpa using hm
    · intro q hq
      simp only [List.mem_singleton] at hq
      subst hq
      exact Nat.zero_le R
    · intro s hs1 hs2 hs3 hs4
      have hs0 : s = 0 := Nat.le_zero.mp (hs3 (start, 0) (List.mem_singleton_self _))
      subst hs0
      intro y hy
      simpa [ball] using hy
    · intro y hy s hball hex hpm hsR
      have hy0 : y = start := Finset.mem_singleton.mp hy
      have hs0 : s = 0 := by
        rcases hex with h | h
        · exact h
        · exact absurd (hy0 ▸ start_mem_ball links start (s - 1)) h
      subst hs0
      refine Or.inl ?_
      rw [hy0]
      exact List.mem_singleton_self _
  have h := bfsAux_sound links start R m {start} [(start, 0)] hInv0 p hp
  exact ⟨fun heq => h.1 (heq ▸ Finset.mem_singleton_self start), h.2⟩

/-- A cyclic (triangle) location graph, for the C3 witness. -/
def triangleLinks : Fin 3 → List (Fin 3) :=
  ![[1, 2], [2, 0], [0, 1]]

/-- Witness for C3: the cascade on the cyclic triangle graph from node 0 with
radius 2 and magnitude 5 satisfies the recorded-event characterization. -/
theorem propagateEffects_records_witness :
    ((1 : ℕ) ≤ 2 ∧ (1 : ℕ) ≤ 5) ∧
      ∀ p ∈ propagateEffects triangleLinks 0 2 5,
        p.1 ≠ 0 ∧ ∃ d, 1 ≤ d ∧ d ≤ 2 ∧ p.1 ∈ ball triangleLinks 0 d ∧
          p.1 ∉ ball triangleLinks 0 (d - 1) ∧ p.2 = 5 / 2 ^ d ∧ 0 < p.2 :=
  ⟨⟨by decide, by decide⟩,
    propagateEffects_records triangleLinks 0 2 5 (by decide) (by decide)⟩
